import Mathlib

/-!
Shallow embedding of `src/gte/src/model.rs` (crate `gte` of bow/gfxtools):
the gene/transcript/exon data model, the builders, the coding-coordinate
normalization, the exon-feature inference walk, and the frame assignment.

Conventions of the embedding:

* `u64` coordinates are `Nat`.  The Rust code is compiled with debug
  assertions (as its test-suite runs), so an arithmetic over- or underflow
  panics; a panic (from overflow, from a failed `unwrap` on
  `Interval::new`, or from a defensive `assert!`) is the `PRes.crash`
  outcome.  `chkSub`/`chkAdd` perform the checked `u64` arithmetic.
* `bio::utils::Interval<u64>` (dependency `rust-bio`) accepts any range
  with `start <= end` (empty intervals included) and rejects
  `start > end` with `IntervalError::InvalidRange`; this behaviour is
  pinned by the repository tests `ebuilder_alt1` (builds an exon with
  `start == end == 10`) and `ebuilder_interval_invalid`
  (`(20, 10)` fails with `InvalidRange`).  Intervals are embedded as
  plain coordinate pairs validated at their creation points.
* `bio::utils::Strand::from_char` follows the mapping documented on the
  builders in `model.rs` (`+`/`f`/`F`, `-`/`r`/`R`, `.`/`?`).
* `MultiMap`/`LinkedHashMap` fields are insertion-ordered association
  lists.
* The crate-level `Error::Model` wrapper around `ModelError` is elided:
  `PRes.err` carries the `ModelError` directly.
-/

namespace Gte

/-- Strand of a genomic feature (`bio::utils::Strand`). -/
inductive Strand where
  | Forward
  | Reverse
  | Unknown
deriving Repr, DecidableEq

/-- Errors of `model.rs` (`ModelError`).  `InvalidInterval` always carries
`IntervalError::InvalidRange` in this embedding, so the payload is dropped;
`InvalidStrandChar`'s payload (the offending char) is likewise dropped. -/
inductive ModelError where
  | InvalidInterval
  | InvalidStrandChar
  | ConflictingStrand
  | UnspecifiedStrand
  | InvalidExonInterval (tid : Option String)
  | InvalidCodingInterval (tid : Option String)
  | UnspecifiedExons (tid : Option String)
  | UnmatchedExons (tid : Option String)
  | CodingTooLarge (tid : Option String)
  | CodingTooSmall (tid : Option String)
  | CodingNotFullyEnveloped (tid : Option String)
  | CodingInIntron (tid : Option String)
  | TranscriptNotFullyEnveloped (tid : Option String)
deriving Repr, DecidableEq

/-- Outcome of running a piece of the model code: a value, a returned
`ModelError`, or a runtime panic (`crash`): an integer over/underflow in a
debug build, a failed `unwrap` on `Interval::new`, or a failed defensive
`assert!`. -/
inductive PRes (α : Type) where
  | ok : α → PRes α
  | err : ModelError → PRes α
  | crash : PRes α
deriving Repr, DecidableEq

/-- Bind for `PRes`: errors and panics propagate. -/
def PRes.bind {α β : Type} : PRes α → (α → PRes β) → PRes β
  | .ok a, f => f a
  | .err e, _ => .err e
  | .crash, _ => .crash

instance : Monad PRes where
  pure := PRes.ok
  bind := PRes.bind

@[simp] theorem PRes.bind_ok {α β : Type} (a : α) (f : α → PRes β) :
    PRes.bind (.ok a) f = f a := rfl

@[simp] theorem PRes.bind_err {α β : Type} (e : ModelError) (f : α → PRes β) :
    PRes.bind (.err e) f = .err e := rfl

@[simp] theorem PRes.bind_crash {α β : Type} (f : α → PRes β) :
    PRes.bind .crash f = .crash := rfl

@[simp] theorem PRes.pure_eq_ok {α : Type} (a : α) :
    (pure a : PRes α) = .ok a := rfl

@[simp] theorem PRes.bind_eq_bind {α β : Type} (m : PRes α) (f : α → PRes β) :
    m >>= f = m.bind f := rfl

/-- One past the largest `u64` value. -/
def U64SIZE : Nat := 18446744073709551616

/-- Checked `u64` subtraction: a debug build panics on underflow. -/
def chkSub (a b : Nat) : PRes Nat :=
  if b ≤ a then .ok (a - b) else .crash

/-- Checked `u64` addition: a debug build panics on overflow past `2^64 - 1`. -/
def chkAdd (a b : Nat) : PRes Nat :=
  if a + b < U64SIZE then .ok (a + b) else .crash

/-- Coordinate pair, `type Coord<T> = (T, T)` with `T = u64`. -/
abbrev Coord := Nat × Nat

/-- Feature kinds for exons (`ExonFeatureKind`).  Frames are `u8` in the
source; their values never exceed 3, so `Nat` is used. -/
inductive ExonFeatureKind where
  | UTR
  | UTR5
  | UTR3
  | CDS (frame : Option Nat)
  | StartCodon (frame : Option Nat)
  | StopCodon (frame : Option Nat)
  | Any (label : String)
deriving Repr, DecidableEq

/-- Exon feature (`Feature<ExonFeatureKind>`): a half-open interval
`[fstart, fend)` with `fstart ≤ fend`, plus a kind. -/
structure ExonFeature where
  fstart : Nat
  fend : Nat
  kind : ExonFeatureKind
deriving Repr, DecidableEq

/-- Span of a feature (`Feature::span`, `end - start`). -/
def ExonFeature.span (f : ExonFeature) : Nat := f.fend - f.fstart

/-- The exon model (`Exon`).  Field order follows the source struct;
`stop` is the source's `interval.end`. -/
structure Exon where
  seq_name : String
  start : Nat
  stop : Nat
  strand : Strand
  id : Option String
  gene_id : Option String
  transcript_id : Option String
  attributes : List (String × String)
  features : List ExonFeature
deriving Repr, DecidableEq

/-- The transcript model (`Transcript`). -/
structure Transcript where
  seq_name : String
  start : Nat
  stop : Nat
  strand : Strand
  id : Option String
  gene_id : Option String
  attributes : List (String × String)
  exons : List Exon
deriving Repr, DecidableEq

/-- The gene model (`Gene`); `transcripts` is the `LinkedHashMap` as an
insertion-ordered association list. -/
structure Gene where
  seq_name : String
  start : Nat
  stop : Nat
  strand : Strand
  id : Option String
  attributes : List (String × String)
  transcripts : List (String × Transcript)
deriving Repr, DecidableEq

/-- Raw transcript coordinate input of `GBuilder::transcript_coords`. -/
abbrev RawTrxCoords := Coord × List Coord × Option Coord

/-- Translation of `Exon::set_transcript_id`. -/
def Exon.set_transcript_id (x : Exon) (tid : Option String) : Exon :=
  { x with transcript_id := tid }

/-- Translation of `Exon::set_gene_id`. -/
def Exon.set_gene_id (x : Exon) (g : Option String) : Exon :=
  { x with gene_id := g }

/-- Translation of `Transcript::set_id`: sets the transcript identifier and
the transcript identifier of every exon. -/
def Transcript.set_id (t : Transcript) (i : Option String) : Transcript :=
  { t with exons := t.exons.map (fun x => x.set_transcript_id i), id := i }

/-- Translation of `Transcript::set_gene_id`: sets the gene identifier and
the gene identifier of every exon. -/
def Transcript.set_gene_id (t : Transcript) (g : Option String) : Transcript :=
  { t with exons := t.exons.map (fun x => x.set_gene_id g), gene_id := g }

/-- Translation of `Gene::set_id`.  The source iterates the gene's
transcripts and calls `transcript.set_id(id.clone())` on each (not
`set_gene_id`), then sets the gene's own `id`. -/
def Gene.set_id (g : Gene) (i : Option String) : Gene :=
  { g with transcripts := g.transcripts.map (fun p => (p.1, p.2.set_id i)), id := i }

/-- Translation of `bio::utils::Strand::from_char` per the builder docs. -/
def strand_from_char (c : Char) : PRes Strand :=
  if c = '+' ∨ c = 'f' ∨ c = 'F' then .ok .Forward
  else if c = '-' ∨ c = 'r' ∨ c = 'R' then .ok .Reverse
  else if c = '.' ∨ c = '?' then .ok .Unknown
  else .err .InvalidStrandChar

/-- Translation of `resolve_strand_input`. -/
def resolve_strand_input : Option Strand → Option Char → PRes Strand
  | none, none => .err .UnspecifiedStrand
  | some sv, none => .ok sv
  | none, some c => strand_from_char c
  | some sv, some c => do
      let sc ← strand_from_char c
      if sv = sc then .ok sv else .err .ConflictingStrand

/-- Translation of `coord_to_interval`: `Interval::new(start..end)`, which
fails with `InvalidRange` exactly when `start > end`. -/
def coord_to_interval (s e : Nat) : PRes Coord :=
  if s ≤ e then .ok (s, e) else .err .InvalidInterval

/-- Lexicographic order on coordinate pairs, the derived `Ord` of Rust's
`(u64, u64)` used by `Vec::sort`. -/
def coordLe (a b : Coord) : Bool :=
  decide (a.1 < b.1) || (decide (a.1 = b.1) && decide (a.2 ≤ b.2))

/-- Insertion step of the sorting of `m_exon_coords`. -/
def insertCoord (x : Coord) : List Coord → List Coord
  | [] => [x]
  | y :: ys => if coordLe x y then x :: y :: ys else y :: insertCoord x ys

/-- Sorting of `m_exon_coords` (`Vec::sort` on `(u64, u64)` pairs):
insertion sort under the lexicographic order, which computes the same
ascending reordering. -/
def sortCoords : List Coord → List Coord
  | [] => []
  | x :: xs => insertCoord x (sortCoords xs)

/-- Forward-strand walk of `adjust_coding_coord`: the source iterates
`exon_coords.iter().rev()`, so this is called on the reversed sorted list.
`codon_rem -= end - adj_end` cannot underflow because
`adj_end = max (end - codon_rem) exon_start ≥ end - codon_rem`. -/
def adjust_fwd : Nat → Nat → List Coord → PRes Nat
  | _, e, [] => .ok e
  | codon_rem, e, (es, ee) :: rest =>
      if es ≤ e ∧ e ≤ ee then do
        let d ← chkSub e codon_rem
        let adj_end := max d es
        let codon_rem' := codon_rem - (e - adj_end)
        if codon_rem' = 0 then .ok adj_end else adjust_fwd codon_rem' adj_end rest
      else adjust_fwd codon_rem e rest

/-- Reverse-strand walk of `adjust_coding_coord` (ascending exon order). -/
def adjust_rev : Nat → Nat → List Coord → PRes Nat
  | _, s, [] => .ok s
  | codon_rem, s, (es, ee) :: rest =>
      if es ≤ s ∧ s ≤ ee then do
        let a ← chkAdd s codon_rem
        let adj_start := min a ee
        let codon_rem' := codon_rem - (adj_start - s)
        if codon_rem' = 0 then .ok adj_start else adjust_rev codon_rem' adj_start rest
      else adjust_rev codon_rem s rest

/-- Translation of `adjust_coding_coord`: strips three exonic bases off the
3'-end (transcription-wise) of the coding interval; unknown strand leaves
it unchanged.  Always returns `some` when it does not panic. -/
def adjust_coding_coord (s e : Nat) (strand : Strand) (exon_coords : List Coord) :
    PRes (Option Coord) :=
  match strand with
  | .Forward => do
      let e' ← adjust_fwd 3 e exon_coords.reverse
      pure (some (s, e'))
  | .Reverse => do
      let s' ← adjust_rev 3 s exon_coords
      pure (some (s', e))
  | .Unknown => pure (some (s, e))

/-- The `feat` closure of `infer_exon_features` and the feature
constructions of `backtrack_and_push`: `Interval::new(start..end).unwrap()`,
panicking when `start > end`. -/
def mkFeat (s e : Nat) (k : ExonFeatureKind) : PRes ExonFeature :=
  if s ≤ e then .ok ⟨s, e, k⟩ else .crash

/-- Translation of `backtrack_and_push`.  The accumulated exon list is kept
most-recently-pushed first, so the source's `exons.iter_mut().rev()` is a
head-first traversal here.  For each visited exon (while `codon_rem ≠ 0`) a
codon piece covering the exon's 3'-most `codon_rem` bases is appended; a
trailing `UTR3` abutting a new `StopCodon` is shrunk, or dropped when
degenerate. -/
def backtrack_and_push (efk : ExonFeatureKind) :
    List Exon → Nat → PRes (List Exon × Nat)
  | exs, 0 => .ok (exs, 0)
  | [], codon_rem => .ok ([], codon_rem)
  | x :: xs, codon_rem => do
      let d ← chkSub x.stop codon_rem
      let fx ← mkFeat (max x.start d) x.stop efk
      let codon_rem' ← chkSub codon_rem fx.span
      let feats' ←
        match x.features.getLast?, efk with
        | some fxp, .StopCodon _ =>
            match fxp.kind with
            | .UTR3 =>
                if fxp.fstart = fx.fstart then pure x.features.dropLast
                else do
                  let nf ← mkFeat fxp.fstart fx.fstart fxp.kind
                  pure (x.features.dropLast ++ [nf])
            | _ => pure x.features
        | _, _ => pure x.features
      let x' := { x with features := feats' ++ [fx] }
      let (xs', rem'') ← backtrack_and_push efk xs codon_rem'
      .ok (x' :: xs', rem'')

/-- State of the synthesis walk of `infer_exon_features`: the exons pushed
so far (most recent first) and the 5'- and 3'-codon remainders
(`codon1_rem`, `codon2_rem`). -/
structure SynSt where
  acc : List Exon
  rem1 : Nat
  rem2 : Nat
deriving Repr, DecidableEq

/-- The `exn` closure of `infer_exon_features` followed by the
`exons.push(exon)` of the branch: builds the exon for `[start, e)` with the
given features and pushes it onto the accumulated (reversed) exon list,
returning the updated walk state. -/
def pushExn (sn : String) (strand : Strand) (tid gid eid : Option String)
    (start e : Nat) (fs : List ExonFeature) (acc : List Exon) (r1 r2 : Nat) :
    PRes SynSt :=
  .ok ⟨({ seq_name := sn, start := start, stop := e, strand := strand,
          id := eid, gene_id := gid, transcript_id := tid,
          attributes := [], features := fs } : Exon) :: acc, r1, r2⟩

/-- Branch of the synthesis walk for an exon with `start < c0` (source
lines 1302-1427): leading UTR (clipped to `c0 - codon1_rem` on Reverse),
then sub-branches on the position of `end` relative to the coding
region. -/
def synStepA (sn : String) (strand : Strand) (tid gid eid : Option String)
    (c0 c1 : Nat) (utr1 utr2 : ExonFeatureKind)
    (st : SynSt) (start e : Nat) : PRes SynSt :=
  let exn : List ExonFeature → List Exon → Nat → Nat → PRes SynSt :=
    pushExn sn strand tid gid eid start e
  do
    let utr_end ←
      match strand with
      | .Reverse => do
          let d ← chkSub c0 st.rem1
          pure (min e d)
      | _ => pure (min e c0)
    let fs0 : List ExonFeature :=
      if start < utr_end then [⟨start, utr_end, utr1⟩] else []
    if e < c0 then
      exn fs0 st.acc st.rem1 st.rem2
    else if e = c0 then
      match strand with
      | .Reverse => do
          let d ← chkSub c0 st.rem1
          let fx : ExonFeature := ⟨max start d, c0, .StopCodon none⟩
          let rem1a ← chkSub st.rem1 fx.span
          let (acc1, rem1b) ← backtrack_and_push (.StopCodon none) st.acc rem1a
          exn (fs0 ++ [fx]) acc1 rem1b st.rem2
      | _ => exn fs0 st.acc st.rem1 st.rem2
    else if c0 < e ∧ e < c1 then
      match strand with
      | .Forward => do
          let a ← chkAdd c0 3
          let fx : ExonFeature := ⟨c0, min e a, .StartCodon none⟩
          let rem1a ← chkSub st.rem1 fx.span
          exn (fs0 ++ [fx, ⟨c0, e, .CDS none⟩]) st.acc rem1a st.rem2
      | .Reverse => do
          let d ← chkSub c0 st.rem1
          let fx : ExonFeature := ⟨max start d, c0, .StopCodon none⟩
          let rem1a ← chkSub st.rem1 fx.span
          let (acc1, rem1b) ← backtrack_and_push (.StopCodon none) st.acc rem1a
          exn (fs0 ++ [fx, ⟨c0, e, .CDS none⟩]) acc1 rem1b st.rem2
      | .Unknown =>
          exn (fs0 ++ [⟨c0, e, .CDS none⟩]) st.acc st.rem1 st.rem2
    else if e = c1 then do
      let w ← chkSub c1 c0
      if w < 3 then .err (.CodingTooSmall tid) else
      match strand with
      | .Forward => do
          let a ← chkAdd c0 3
          let fx : ExonFeature := ⟨c0, a, .StartCodon none⟩
          let rem1a ← chkSub st.rem1 fx.span
          exn (fs0 ++ [fx, ⟨c0, c1, .CDS none⟩]) st.acc rem1a st.rem2
      | .Reverse => do
          let d ← chkSub c0 st.rem1
          let fx : ExonFeature := ⟨max d start, c0, .StopCodon none⟩
          let rem1a ← chkSub st.rem1 fx.span
          let (acc1, rem1b) ← backtrack_and_push (.StopCodon none) st.acc rem1a
          let d2 ← chkSub c1 st.rem2
          let fx2 : ExonFeature := ⟨max start d2, c1, .StartCodon none⟩
          let rem2a ← chkSub st.rem2 fx2.span
          let (acc2, rem2b) ← backtrack_and_push (.StartCodon none) acc1 rem2a
          exn (fs0 ++ [fx, ⟨c0, c1, .CDS none⟩, fx2]) acc2 rem1b rem2b
      | .Unknown =>
          exn (fs0 ++ [⟨c0, c1, .CDS none⟩]) st.acc st.rem1 st.rem2
    else if c1 < e then do
      let w ← chkSub c1 c0
      if w < 3 then .err (.CodingTooSmall tid) else
      match strand with
      | .Forward => do
          let a ← chkAdd c0 3
          let rem1a ← chkSub st.rem1 3
          let a2 ← chkAdd c1 st.rem2
          let fx : ExonFeature := ⟨c1, min e a2, .StopCodon none⟩
          let rem2a ← chkSub st.rem2 fx.span
          let tail := if fx.fend < e then [⟨fx.fend, e, utr2⟩] else []
          exn (fs0 ++ [⟨c0, a, .StartCodon none⟩, ⟨c0, c1, .CDS none⟩, fx] ++ tail)
            st.acc rem1a rem2a
      | .Reverse => do
          let d ← chkSub c0 st.rem2
          let fx : ExonFeature := ⟨max start d, c0, .StopCodon none⟩
          let rem1a ← chkSub st.rem1 fx.span
          let (acc1, rem1b) ← backtrack_and_push (.StopCodon none) st.acc rem1a
          let d2 ← chkSub c1 st.rem2
          let fx2 : ExonFeature := ⟨d2, c1, .StartCodon none⟩
          let rem2a ← chkSub st.rem2 fx2.span
          exn (fs0 ++ [fx, ⟨c0, c1, .CDS none⟩, fx2, ⟨c1, e, utr2⟩]) acc1 rem1b rem2a
      | .Unknown =>
          exn (fs0 ++ [⟨c0, c1, .CDS none⟩, ⟨c1, e, utr2⟩]) st.acc st.rem1 st.rem2
    else .crash

/-- Branch of the synthesis walk for an exon with `start = c0` (source
lines 1429-1513). -/
def synStepB (sn : String) (strand : Strand) (tid gid eid : Option String)
    (c0 c1 : Nat) (utr2 : ExonFeatureKind)
    (st : SynSt) (start e : Nat) : PRes SynSt :=
  let exn : List ExonFeature → List Exon → Nat → Nat → PRes SynSt :=
    pushExn sn strand tid gid eid start e
  if e < c1 then
    match strand with
    | .Forward => do
        let a ← chkAdd start st.rem1
        let fx : ExonFeature := ⟨start, min a e, .StartCodon none⟩
        let rem1a ← chkSub st.rem1 fx.span
        exn [fx, ⟨start, e, .CDS none⟩] st.acc rem1a st.rem2
    | .Reverse => do
        let (acc1, rem1b) ← backtrack_and_push (.StopCodon none) st.acc st.rem1
        exn [⟨start, e, .CDS none⟩] acc1 rem1b st.rem2
    | .Unknown =>
        exn [⟨start, e, .CDS none⟩] st.acc st.rem1 st.rem2
  else if e = c1 then do
    let w ← chkSub c1 c0
    if w < 3 then .err (.CodingTooSmall tid) else
    match strand with
    | .Forward => do
        let a ← chkAdd start 3
        exn [⟨start, a, .StartCodon none⟩, ⟨start, e, .CDS none⟩] st.acc 0 st.rem2
    | .Reverse => do
        let (acc1, rem1b) ← backtrack_and_push (.StopCodon none) st.acc st.rem1
        let d2 ← chkSub e 3
        exn [⟨start, e, .CDS none⟩, ⟨d2, e, .StartCodon none⟩] acc1 rem1b 0
    | .Unknown =>
        exn [⟨start, e, .CDS none⟩] st.acc st.rem1 st.rem2
  else if c1 < e then do
    let w ← chkSub c1 c0
    if w < 3 then .err (.CodingTooSmall tid) else
    match strand with
    | .Forward => do
        let a ← chkAdd start 3
        let rem1a ← chkSub st.rem1 3
        let a2 ← chkAdd c1 st.rem2
        let fx : ExonFeature := ⟨c1, min e a2, .StopCodon none⟩
        let rem2a ← chkSub st.rem2 fx.span
        let tail := if fx.fend < e then [⟨fx.fend, e, utr2⟩] else []
        exn ([⟨start, a, .StartCodon none⟩, ⟨start, c1, .CDS none⟩, fx] ++ tail)
          st.acc rem1a rem2a
    | .Reverse => do
        let (acc1, rem1b) ← backtrack_and_push (.StopCodon none) st.acc st.rem1
        let d ← chkSub c1 3
        let rem2a ← chkSub st.rem2 3
        exn [⟨start, c1, .CDS none⟩, ⟨d, c1, .StartCodon none⟩, ⟨c1, e, utr2⟩]
          acc1 rem1b rem2a
    | .Unknown =>
        exn [⟨start, c1, .CDS none⟩, ⟨c1, e, utr2⟩] st.acc st.rem1 st.rem2
  else .crash

/-- Branch of the synthesis walk for an exon with `c0 < start < c1`
(source lines 1515-1597). -/
def synStepC (sn : String) (strand : Strand) (tid gid eid : Option String)
    (c1 : Nat) (utr2 : ExonFeatureKind)
    (st : SynSt) (start e : Nat) : PRes SynSt :=
  let exn : List ExonFeature → List Exon → Nat → Nat → PRes SynSt :=
    pushExn sn strand tid gid eid start e
  if e < c1 then
    match strand with
    | .Forward =>
        if 0 < st.rem1 then do
          let a ← chkAdd start st.rem1
          let fx : ExonFeature := ⟨start, min e a, .StartCodon none⟩
          let rem1a ← chkSub st.rem1 fx.span
          exn [fx, ⟨start, e, .CDS none⟩] st.acc rem1a st.rem2
        else
          exn [⟨start, e, .CDS none⟩] st.acc st.rem1 st.rem2
    | _ =>
        exn [⟨start, e, .CDS none⟩] st.acc st.rem1 st.rem2
  else if e = c1 then
    match strand with
    | .Forward =>
        if 0 < st.rem1 then do
          let a ← chkAdd start st.rem1
          let fx : ExonFeature := ⟨start, min e a, .StartCodon none⟩
          let rem1a ← chkSub st.rem1 fx.span
          exn [fx, ⟨start, e, .CDS none⟩] st.acc rem1a st.rem2
        else
          exn [⟨start, e, .CDS none⟩] st.acc st.rem1 st.rem2
    | .Reverse => do
        let d2 ← chkSub c1 st.rem2
        let fx2 : ExonFeature := ⟨max start d2, c1, .StartCodon none⟩
        let rem2a ← chkSub st.rem2 fx2.span
        let (acc1, rem2b) ← backtrack_and_push (.StartCodon none) st.acc rem2a
        exn [⟨start, e, .CDS none⟩, fx2] acc1 st.rem1 rem2b
    | .Unknown =>
        exn [⟨start, e, .CDS none⟩] st.acc st.rem1 st.rem2
  else if c1 < e then
    match strand with
    | .Forward => do
        let fsStart ←
          if 0 < st.rem1 then do
            let a ← chkAdd start st.rem1
            let fx : ExonFeature := ⟨start, min c1 a, .StartCodon none⟩
            let rem1a ← chkSub st.rem1 fx.span
            pure ([fx], rem1a)
          else
            pure (([] : List ExonFeature), st.rem1)
        let a2 ← chkAdd c1 st.rem2
        let fx2 : ExonFeature := ⟨c1, min a2 e, .StopCodon none⟩
        let rem2a ← chkSub st.rem2 fx2.span
        let tail := if fx2.fend < e then [⟨fx2.fend, e, utr2⟩] else []
        exn (fsStart.1 ++ [⟨start, c1, .CDS none⟩, fx2] ++ tail) st.acc fsStart.2 rem2a
    | .Reverse => do
        let d2 ← chkSub c1 st.rem2
        let fx2 : ExonFeature := ⟨max start d2, c1, .StartCodon none⟩
        let rem2a ← chkSub st.rem2 fx2.span
        let (acc1, rem2b) ← backtrack_and_push (.StartCodon none) st.acc rem2a
        exn [⟨start, c1, .CDS none⟩, fx2, ⟨c1, e, utr2⟩] acc1 st.rem1 rem2b
    | .Unknown =>
        exn [⟨start, c1, .CDS none⟩, ⟨c1, e, utr2⟩] st.acc st.rem1 st.rem2
  else .crash

/-- Branch of the synthesis walk for an exon with `start ≥ c1` (source
lines 1599-1625). -/
def synStepD (sn : String) (strand : Strand) (tid gid eid : Option String)
    (utr2 : ExonFeatureKind) (st : SynSt) (start e : Nat) : PRes SynSt :=
  let exn : List ExonFeature → List Exon → Nat → Nat → PRes SynSt :=
    pushExn sn strand tid gid eid start e
  match strand with
  | .Forward =>
      if 0 < st.rem2 then do
        let a ← chkAdd start st.rem2
        let fx : ExonFeature := ⟨start, min a e, .StopCodon none⟩
        let rem2a ← chkSub st.rem2 fx.span
        let tail := if fx.fend < e then [⟨fx.fend, e, utr2⟩] else []
        exn ([fx] ++ tail) st.acc st.rem1 rem2a
      else
        exn [⟨start, e, utr2⟩] st.acc st.rem1 st.rem2
  | .Reverse => do
      let (acc1, rem2b) ← backtrack_and_push (.StartCodon none) st.acc st.rem2
      exn [⟨start, e, utr2⟩] acc1 st.rem1 rem2b
  | .Unknown =>
      exn [⟨start, e, utr2⟩] st.acc st.rem1 st.rem2

/-- One iteration of the exon loop of `infer_exon_features`, for the exon
coordinate `c = (start, end)`: dispatch on the position of `start`
relative to the coding region, into the four branch functions above.
The leading `e < start` test is the `exn` interval `unwrap`, and the
final `.crash` arm is the defensive `assert!(false)` branch. -/
def synStep (sn : String) (strand : Strand) (tid gid eid : Option String)
    (c0 c1 : Nat) (utr1 utr2 : ExonFeatureKind)
    (st : SynSt) (c : Coord) : PRes SynSt :=
  let start := c.1
  let e := c.2
  if e < start then .crash
  else if start < c0 then
    synStepA sn strand tid gid eid c0 c1 utr1 utr2 st start e
  else if start = c0 then
    synStepB sn strand tid gid eid c0 c1 utr2 st start e
  else if c0 < start ∧ start < c1 then
    synStepC sn strand tid gid eid c1 utr2 st start e
  else if c1 ≤ start then
    synStepD sn strand tid gid eid utr2 st start e
  else .crash

/-- The exon loop of `infer_exon_features` as a fold over the sorted exon
coordinates. -/
def synFold (sn : String) (strand : Strand) (tid gid eid : Option String)
    (c0 c1 : Nat) (utr1 utr2 : ExonFeatureKind) :
    SynSt → List Coord → PRes SynSt
  | st, [] => .ok st
  | st, c :: cs => do
      let st' ← synStep sn strand tid gid eid c0 c1 utr1 utr2 st c
      synFold sn strand tid gid eid c0 c1 utr1 utr2 st' cs

/-- Translation of `calc_next_frame`. -/
def calc_next_frame (cur_span cur_frame : Nat) : Nat :=
  if cur_frame ≤ cur_span then (3 - ((cur_span - cur_frame) % 3)) % 3
  else 3 - (cur_frame - cur_span) % 3

/-- Frame state: the running frames for StartCodon, CDS and StopCodon. -/
abbrev FrameSt := Nat × Nat × Nat

/-- Frame assignment for one feature (`set_coding_frames` loop body). -/
def framesFeat (fst : FrameSt) (f : ExonFeature) : FrameSt × ExonFeature :=
  match f.kind with
  | .StartCodon _ =>
      ((calc_next_frame f.span fst.1, fst.2.1, fst.2.2),
       { f with kind := .StartCodon (some fst.1) })
  | .CDS _ =>
      ((fst.1, calc_next_frame f.span fst.2.1, fst.2.2),
       { f with kind := .CDS (some fst.2.1) })
  | .StopCodon _ =>
      ((fst.1, fst.2.1, calc_next_frame f.span fst.2.2),
       { f with kind := .StopCodon (some fst.2.2) })
  | _ => (fst, f)

/-- Frame assignment over a feature list, threading the frame state. -/
def framesFeats : FrameSt → List ExonFeature → FrameSt × List ExonFeature
  | fst, [] => (fst, [])
  | fst, f :: fs =>
      let (fst', f') := framesFeat fst f
      let (fst'', fs') := framesFeats fst' fs
      (fst'', f' :: fs')

/-- Frame assignment over an exon list, threading the frame state. -/
def framesExons : FrameSt → List Exon → List Exon
  | _, [] => []
  | fst, x :: xs =>
      let (fst', fs') := framesFeats fst x.features
      { x with features := fs' } :: framesExons fst' xs

/-- Translation of `set_coding_frames` (initial frames all 0); the caller
passes the exons in transcription order. -/
def set_coding_frames (exs : List Exon) : List Exon :=
  framesExons (0, 0, 0) exs

/-- Translation of `infer_exon_features`: the synthesis walk over the
sorted exon coordinates followed by frame assignment in transcription
order (`Forward`: ascending, `Reverse`: descending, `Unknown`: none). -/
def infer_exon_features (exon_coords : List Coord) (coding_r : Coord)
    (sn : String) (strand : Strand) (tid gid eid : Option String) :
    PRes (List Exon) := do
  let (utr1, utr2) :=
    match strand with
    | .Forward => (ExonFeatureKind.UTR5, ExonFeatureKind.UTR3)
    | .Reverse => (ExonFeatureKind.UTR3, ExonFeatureKind.UTR5)
    | .Unknown => (ExonFeatureKind.UTR, ExonFeatureKind.UTR)
  let st ← synFold sn strand tid gid eid coding_r.1 coding_r.2 utr1 utr2 ⟨[], 3, 3⟩ exon_coords
  let exs := st.acc.reverse
  match strand with
  | .Forward => pure (set_coding_frames exs)
  | .Reverse => pure ((set_coding_frames exs.reverse).reverse)
  | .Unknown => pure exs

/-- The stop-codon-room check of `infer_exons` (`stop_codon_ok`), including
the `&&` short-circuit of the `Unknown` arm. -/
def stopRoom (strand : Strand) (c0 c1 er0 er1 : Nat) : PRes Bool :=
  match strand with
  | .Forward => do
      let a ← chkAdd c1 3
      pure (decide (a ≤ er1))
  | .Reverse => do
      let d ← chkSub c0 3
      pure (decide (er0 ≤ d))
  | .Unknown => do
      let d ← chkSub c0 3
      if er0 ≤ d then do
        let a ← chkAdd c1 3
        pure (decide (a ≤ er1))
      else pure false

/-- The coding-coordinate normalization step of `infer_exons`:
`coding_coord.and_then(adjust_coding_coord ...)` when `coding_incl_stop`,
the unchanged coordinate otherwise. -/
def adjustedCoding (incl : Bool) (cc : Option Coord) (strand : Strand)
    (m : List Coord) : PRes (Option Coord) :=
  if incl then
    match cc with
    | some c => adjust_coding_coord c.1 c.2 strand m
    | none => pure none
  else pure cc

/-- The `cine` fold of `infer_exons`: whether some exon contains the coding
start, resp. the coding end, under closed-interval containment. -/
def cineFold (m : List Coord) (c0 c1 : Nat) : Bool × Bool :=
  m.foldl (fun acc c =>
    (acc.1 || (decide (c.1 ≤ c0) && decide (c0 ≤ c.2)),
     acc.2 || (decide (c.1 ≤ c1) && decide (c1 ≤ c.2)))) (false, false)

/-- Translation of `infer_exons`. -/
def infer_exons (sn : String) (t_start t_stop : Nat) (strand : Strand)
    (tid gid eid : Option String) (exon_coords : List Coord)
    (coding_coord : Option Coord) (coding_incl_stop : Bool) :
    PRes (List Exon) := do
  if exon_coords = [] then .err (.UnspecifiedExons tid) else
  if ¬ exon_coords.all (fun c => decide (c.1 < c.2)) then
    .err (.InvalidExonInterval tid)
  else do
    let m := sortCoords exon_coords
    let adj ← adjustedCoding coding_incl_stop coding_coord strand m
    let er0 := (m.headD (0, 0)).1
    let er1 := (m.getLastD (0, 0)).2
    if er0 ≠ t_start ∨ er1 ≠ t_stop then .err (.UnmatchedExons tid) else
    match adj with
    | some cr => do
        if cr.2 ≤ cr.1 then .err (.InvalidCodingInterval tid) else
        if cr.1 < er0 ∨ er1 < cr.2 then .err (.CodingNotFullyEnveloped tid) else
        let cine := cineFold m cr.1 cr.2
        if ¬ cine.1 ∨ ¬ cine.2 then .err (.CodingInIntron tid) else do
        let room ← stopRoom strand cr.1 cr.2 er0 er1
        if ¬ room then .err (.CodingTooLarge tid) else
        infer_exon_features m cr sn strand tid gid eid
    | none =>
        pure (m.map (fun c =>
          { seq_name := sn, start := c.1, stop := c.2, strand := strand,
            id := eid, transcript_id := tid, gene_id := gid,
            attributes := [], features := [] }))

/-- Translation of `resolve_exons_input`. -/
def resolve_exons_input (sn : String) (itv : Coord) (strand : Strand)
    (tid gid eid : Option String) (exons : Option (List Exon))
    (exon_coords : Option (List Coord)) (coding_coord : Option Coord)
    (coding_incl_stop : Bool) : PRes (List Exon) :=
  match exons, exon_coords, coding_coord with
  | none, none, none => .ok []
  | none, none, some _ => .err (.UnspecifiedExons tid)
  | some exns, _, _ => .ok exns
  | none, some ecs, cc =>
      infer_exons sn itv.1 itv.2 strand tid gid eid ecs cc coding_incl_stop

/-- The exon builder (`EBuilder`): configuration record.  `stop` is the
source's `end`. -/
structure EBuilder where
  seq_name : String
  start : Nat
  stop : Nat
  strand : Option Strand
  strand_char : Option Char
  id : Option String
  transcript_id : Option String
  gene_id : Option String
  attributes : List (String × String)
  features : List ExonFeature
deriving Repr, DecidableEq

/-- Translation of `EBuilder::build`. -/
def EBuilder.build (b : EBuilder) : PRes Exon := do
  let itv ← coord_to_interval b.start b.stop
  let strand ← resolve_strand_input b.strand b.strand_char
  pure { seq_name := b.seq_name, start := itv.1, stop := itv.2, strand := strand,
         id := b.id, transcript_id := b.transcript_id, gene_id := b.gene_id,
         attributes := b.attributes, features := b.features }

/-- The transcript builder (`TBuilder`): configuration record.  The
`exons` setter of the source turns an empty vector into `None`, so the
field here is the resulting `Option`. -/
structure TBuilder where
  seq_name : String
  start : Nat
  stop : Nat
  strand : Option Strand
  strand_char : Option Char
  id : Option String
  gene_id : Option String
  attributes : List (String × String)
  exons : Option (List Exon)
  exon_coords : Option (List Coord)
  coding_coord : Option Coord
  coding_incl_stop : Bool
deriving Repr, DecidableEq

/-- Translation of `TBuilder::build`. -/
def TBuilder.build (b : TBuilder) : PRes Transcript := do
  let itv ← coord_to_interval b.start b.stop
  let strand ← resolve_strand_input b.strand b.strand_char
  let exns ← resolve_exons_input b.seq_name itv strand b.id b.gene_id none
    b.exons b.exon_coords b.coding_coord b.coding_incl_stop
  pure { seq_name := b.seq_name, start := itv.1, stop := itv.2, strand := strand,
         id := b.id, gene_id := b.gene_id, attributes := b.attributes, exons := exns }

/-- The per-transcript loop of `resolve_transcripts_input`: envelope check
against the gene interval, then a `TBuilder` build per entry. -/
def buildTrxList (sn : String) (itv : Coord) (strand : Strand) (gid : Option String)
    (incl : Bool) : List (String × RawTrxCoords) → PRes (List (String × Transcript))
  | [] => .ok []
  | (tid, (tc, ecs, cc)) :: rest => do
      if tc.1 < itv.1 ∨ itv.2 < tc.2 then
        .err (.TranscriptNotFullyEnveloped (some tid))
      else do
        let trx ← TBuilder.build
          { seq_name := sn, start := tc.1, stop := tc.2, strand := some strand,
            strand_char := none, id := some tid, gene_id := gid, attributes := [],
            exons := none, exon_coords := some ecs, coding_coord := cc,
            coding_incl_stop := incl }
        let rest' ← buildTrxList sn itv strand gid incl rest
        .ok ((tid, trx) :: rest')

/-- Translation of `resolve_transcripts_input`. -/
def resolve_transcripts_input (sn : String) (itv : Coord) (strand : Strand)
    (gid : Option String) (trxs : Option (List (String × Transcript)))
    (tcoords : Option (List (String × RawTrxCoords))) (incl : Bool) :
    PRes (List (String × Transcript)) :=
  match trxs, tcoords with
  | none, none => .ok []
  | some t, _ => .ok t
  | none, some cs => buildTrxList sn itv strand gid incl cs

/-- The gene builder (`GBuilder`): configuration record. -/
structure GBuilder where
  seq_name : String
  start : Nat
  stop : Nat
  strand : Option Strand
  strand_char : Option Char
  id : Option String
  attributes : List (String × String)
  transcripts : Option (List (String × Transcript))
  transcript_coords : Option (List (String × RawTrxCoords))
  transcript_coding_incl_stop : Bool
deriving Repr

/-- Translation of `GBuilder::build`. -/
def GBuilder.build (b : GBuilder) : PRes Gene := do
  let itv ← coord_to_interval b.start b.stop
  let strand ← resolve_strand_input b.strand b.strand_char
  let trxs ← resolve_transcripts_input b.seq_name itv strand b.id
    b.transcripts b.transcript_coords b.transcript_coding_incl_stop
  pure { seq_name := b.seq_name, start := itv.1, stop := itv.2, strand := strand,
         id := b.id, attributes := b.attributes, transcripts := trxs }

/-- Feature scan of `coding_start_coord` for `Forward`: the 5'-most
`StartCodon` start. -/
def scanFirstStart : List ExonFeature → Option Nat
  | [] => none
  | f :: fs =>
      match f.kind with
      | .StartCodon _ => some f.fstart
      | _ => scanFirstStart fs

/-- Feature scan of `coding_end_coord` for `Reverse` (reversed feature
order): the 3'-most `StartCodon` end. -/
def scanFirstStartEnd : List ExonFeature → Option Nat
  | [] => none
  | f :: fs =>
      match f.kind with
      | .StartCodon _ => some f.fend
      | _ => scanFirstStartEnd fs

/-- Feature scan for the `Unknown` arms: the first `CDS`, projected by
`pickEnd`. -/
def scanFirstCDS (pickEnd : Bool) : List ExonFeature → Option Nat
  | [] => none
  | f :: fs =>
      match f.kind with
      | .CDS _ => some (if pickEnd then f.fend else f.fstart)
      | _ => scanFirstCDS pickEnd fs

/-- Stop-codon feature scan of `coding_start_coord` for `Reverse` /
`coding_end_coord` for `Forward` (with features already in the iteration
order): on a `StopCodon`, return its boundary when `incl_stop`, otherwise
consume its span from `codon_rem` (checked `u64` subtraction) and return
the other boundary when the remainder reaches zero. -/
def stopScanFeats (incl : Bool) (pickA pickB : ExonFeature → Nat) :
    Nat → List ExonFeature → PRes (Option Nat × Nat)
  | rem, [] => .ok (none, rem)
  | rem, f :: fs =>
      match f.kind with
      | .StopCodon _ =>
          if incl then .ok (some (pickA f), rem)
          else do
            let rem' ← chkSub rem f.span
            if rem' = 0 then .ok (some (pickB f), rem')
            else stopScanFeats incl pickA pickB rem' fs
      | _ => stopScanFeats incl pickA pickB rem fs

/-- Exon-level walk for `stopScanFeats`, threading the codon remainder. -/
def stopScanExons (incl : Bool) (pickA pickB : ExonFeature → Nat)
    (revFeats : Bool) : Nat → List Exon → PRes (Option Nat)
  | _, [] => .ok none
  | rem, x :: xs => do
      let fs := if revFeats then x.features.reverse else x.features
      let (r, rem') ← stopScanFeats incl pickA pickB rem fs
      match r with
      | some v => .ok (some v)
      | none => stopScanExons incl pickA pickB revFeats rem' xs

/-- Translation of `Transcript::coding_start_coord`. -/
def Transcript.coding_start_coord (t : Transcript) (incl_stop : Bool) :
    PRes (Option Nat) :=
  match t.strand with
  | .Forward =>
      .ok (t.exons.foldl (fun acc x =>
        match acc with
        | some v => some v
        | none => scanFirstStart x.features) none)
  | .Reverse =>
      stopScanExons incl_stop (fun f => f.fstart) (fun f => f.fend) false
        (if incl_stop then 0 else 3) t.exons
  | .Unknown =>
      if incl_stop then
        .ok (t.exons.foldl (fun acc x =>
          match acc with
          | some v => some v
          | none => scanFirstCDS false x.features) none)
      else .ok none

/-- Translation of `Transcript::coding_end_coord`. -/
def Transcript.coding_end_coord (t : Transcript) (incl_stop : Bool) :
    PRes (Option Nat) :=
  match t.strand with
  | .Forward =>
      stopScanExons incl_stop (fun f => f.fend) (fun f => f.fstart) true
        (if incl_stop then 0 else 3) t.exons.reverse
  | .Reverse =>
      .ok (t.exons.reverse.foldl (fun acc x =>
        match acc with
        | some v => some v
        | none => scanFirstStartEnd x.features.reverse) none)
  | .Unknown =>
      if incl_stop then
        .ok (t.exons.reverse.foldl (fun acc x =>
          match acc with
          | some v => some v
          | none => scanFirstCDS true x.features.reverse) none)
      else .ok none

/-- Translation of `Transcript::coding_coord`: both endpoint queries are
evaluated (in source order), then combined. -/
def Transcript.coding_coord (t : Transcript) (incl_stop : Bool) :
    PRes (Option Coord) := do
  let s ← t.coding_start_coord incl_stop
  let e ← t.coding_end_coord incl_stop
  match s, e with
  | some a, some b => .ok (some (a, b))
  | _, _ => .ok none

/-! Spec-side observables used to state the claims. -/

/-- Total span of the `StartCodon` features of a feature list. -/
def startSpans : List ExonFeature → Nat
  | [] => 0
  | f :: fs => (match f.kind with | .StartCodon _ => f.span | _ => 0) + startSpans fs

/-- Total span of the `StopCodon` features of a feature list. -/
def stopSpans : List ExonFeature → Nat
  | [] => 0
  | f :: fs => (match f.kind with | .StopCodon _ => f.span | _ => 0) + stopSpans fs

/-- Total span of all `StartCodon` sub-features over all exons of a
transcript. -/
def Transcript.startCodonSpan (t : Transcript) : Nat :=
  (t.exons.map (fun x => startSpans x.features)).sum

/-- Total span of all `StopCodon` sub-features over all exons of a
transcript. -/
def Transcript.stopCodonSpan (t : Transcript) : Nat :=
  (t.exons.map (fun x => stopSpans x.features)).sum

/-- Sub-features pairwise non-overlapping and in ascending interval order:
each feature ends at or before the next one starts. -/
def featsNOA : List ExonFeature → Bool
  | [] => true
  | [_] => true
  | a :: b :: rest => decide (a.fend ≤ b.fstart) && featsNOA (b :: rest)

/-- Sub-features in ascending lexicographic `(start, end)` interval
order. -/
def featsAsc : List ExonFeature → Bool
  | [] => true
  | [_] => true
  | a :: b :: rest =>
      (decide (a.fstart < b.fstart) ||
        (decide (a.fstart = b.fstart) && decide (a.fend ≤ b.fend))) &&
      featsAsc (b :: rest)

/-- Projects an observation out of a build result; `none` when the build
did not succeed. -/
def onBuild {α : Type} (r : PRes Transcript) (f : Transcript → α) : Option α :=
  match r with
  | .ok t => some (f t)
  | _ => none

/-- Projects an observation out of a gene build result. -/
def onGene {α : Type} (r : PRes Gene) (f : Gene → α) : Option α :=
  match r with
  | .ok t => some (f t)
  | _ => none

/-- Whether some exon of the transcript has a feature satisfying `p`. -/
def Transcript.hasFeat (t : Transcript) (p : ExonFeature → Bool) : Bool :=
  t.exons.any (fun x => x.features.any p)

/-- A `StopCodon` feature spanning exactly `[s, e)`. -/
def isStopAt (s e : Nat) (f : ExonFeature) : Bool :=
  decide (f.fstart = s) && decide (f.fend = e) &&
    (match f.kind with | .StopCodon _ => true | _ => false)

/-- A `StartCodon` feature spanning exactly `[s, e)`. -/
def isStartAt (s e : Nat) (f : ExonFeature) : Bool :=
  decide (f.fstart = s) && decide (f.fend = e) &&
    (match f.kind with | .StartCodon _ => true | _ => false)

/-- The genome-wise 5'-most CDS start of a transcript (feature scan in
ascending order). -/
def Transcript.firstCDSStart (t : Transcript) : Option Nat :=
  t.exons.foldl (fun acc x =>
    match acc with
    | some v => some v
    | none => scanFirstCDS false x.features) none

/-- A transcript-builder input given by strand, exon coordinates, a coding
coordinate and the includes-stop flag (the refFlat construction path). -/
def coordTB (s e : Nat) (σ : Strand) (ecs : List Coord) (cc : Option Coord)
    (incl : Bool) : TBuilder :=
  { seq_name := "chr1", start := s, stop := e, strand := some σ,
    strand_char := none, id := none, gene_id := none, attributes := [],
    exons := none, exon_coords := some ecs, coding_coord := cc,
    coding_incl_stop := incl }

/-! Basic lemmas about the embedding. -/

theorem PRes.ok_ne_err {α : Type} (a : α) (x : ModelError) :
    (PRes.ok a = PRes.err x) ↔ False := by simp

theorem PRes.bind_eq_err_iff {α β : Type} (m : PRes α) (f : α → PRes β) (x : ModelError) :
    PRes.bind m f = .err x ↔ ((∃ a, m = .ok a ∧ f a = .err x) ∨ m = .err x) := by
  cases m <;> simp [PRes.bind]

theorem PRes.bind_eq_ok_iff {α β : Type} (m : PRes α) (f : α → PRes β) (b : β) :
    PRes.bind m f = .ok b ↔ (∃ a, m = .ok a ∧ f a = .ok b) := by
  cases m <;> simp [PRes.bind]

theorem chkSub_eq_ok {a b c : Nat} : chkSub a b = .ok c ↔ b ≤ a ∧ a - b = c := by
  unfold chkSub; split <;> simp_all

theorem chkAdd_eq_ok {a b c : Nat} : chkAdd a b = .ok c ↔ a + b < U64SIZE ∧ a + b = c := by
  unfold chkAdd; split <;> simp_all

theorem chkSub_ne_err {a b : Nat} : ∀ x, ¬ chkSub a b = PRes.err x := by
  intro x; unfold chkSub; split <;> simp

theorem chkAdd_ne_err {a b : Nat} : ∀ x, ¬ chkAdd a b = PRes.err x := by
  intro x; unfold chkAdd; split <;> simp

theorem mkFeat_eq_ok {s e : Nat} {k : ExonFeatureKind} {f : ExonFeature} :
    mkFeat s e k = .ok f ↔ s ≤ e ∧ f = ⟨s, e, k⟩ := by
  unfold mkFeat; split <;> simp_all; tauto

theorem mkFeat_ne_err {s e : Nat} {k : ExonFeatureKind} : ∀ x, ¬ mkFeat s e k = PRes.err x := by
  intro x; unfold mkFeat; split <;> simp

/-- `backtrack_and_push` never returns a `ModelError` (it can only panic
on an interval `unwrap`). -/
theorem backtrack_err {efk : ExonFeatureKind} {l : List Exon} {rem : Nat} {x : ModelError} :
    ¬ (backtrack_and_push efk l rem = .err x) := by
  induction l generalizing rem with
  | nil => intro h; cases rem <;> simp [backtrack_and_push] at h
  | cons hd tl ih =>
      intro h
      cases rem with
      | zero => simp [backtrack_and_push] at h
      | succ n =>
          unfold backtrack_and_push at h
          simp only [PRes.bind_eq_bind, PRes.bind_eq_err_iff, chkSub_eq_ok,
            mkFeat_eq_ok, chkSub_ne_err, mkFeat_ne_err, PRes.ok_ne_err, or_false, false_and,
            exists_false, false_or, and_false] at h
          obtain ⟨a, ⟨hle, rfl⟩, hf, ⟨hle2, rfl⟩, h⟩ := h
          obtain ⟨a2, -, h⟩ := h
          split at h
          all_goals try split at h
          all_goals try split at h
          all_goals
            simp only [PRes.pure_eq_ok, PRes.bind_eq_bind, PRes.bind_ok, PRes.bind_eq_err_iff,
              mkFeat_eq_ok, mkFeat_ne_err, PRes.ok_ne_err, and_false, false_and, exists_false,
              or_self, false_or, or_false, exists_eq_left, ih] at h

/-- Propagation shape of inference errors: everything the walk can return
as `.err` is `CodingTooSmall tid`. -/
def ErrOnly {α : Type} (m : PRes α) (tid : Option String) : Prop :=
  ∀ x, m = .err x → x = ModelError.CodingTooSmall tid

theorem ErrOnly.okC {α : Type} {tid : Option String} (s : α) : ErrOnly (.ok s) tid := by
  intro x h; cases h

theorem ErrOnly.crashC {α : Type} {tid : Option String} : ErrOnly (.crash : PRes α) tid := by
  intro x h; cases h

theorem ErrOnly.errC {α : Type} {tid : Option String} :
    ErrOnly (.err (.CodingTooSmall tid) : PRes α) tid := by
  intro x h; cases h; rfl

theorem ErrOnly.bindSafe {α β : Type} {tid : Option String} {m : PRes α} {f : α → PRes β}
    (hm : ∀ x, ¬ m = PRes.err x) (hf : ∀ a, ErrOnly (f a) tid) :
    ErrOnly (m.bind f) tid := by
  intro x h
  cases m with
  | ok a => exact hf a x h
  | err e => exact absurd rfl (hm e)
  | crash => cases h

theorem ErrOnly.seq {α β : Type} {tid : Option String} {m : PRes α} {f : α → PRes β}
    (hm : ErrOnly m tid) (hf : ∀ a, ErrOnly (f a) tid) :
    ErrOnly (m >>= f) tid := by
  intro x h
  cases m with
  | ok a => exact hf a x h
  | err e => cases h; exact hm x rfl
  | crash => cases h

theorem ErrOnly.seq_chkSub {β : Type} {tid : Option String} {a b : Nat} {f : Nat → PRes β}
    (hf : ∀ v, ErrOnly (f v) tid) : ErrOnly (chkSub a b >>= f) tid :=
  ErrOnly.bindSafe chkSub_ne_err hf

theorem ErrOnly.seq_chkAdd {β : Type} {tid : Option String} {a b : Nat} {f : Nat → PRes β}
    (hf : ∀ v, ErrOnly (f v) tid) : ErrOnly (chkAdd a b >>= f) tid :=
  ErrOnly.bindSafe chkAdd_ne_err hf

theorem ErrOnly.seq_mkFeat {β : Type} {tid : Option String} {s e : Nat} {k : ExonFeatureKind}
    {f : ExonFeature → PRes β} (hf : ∀ v, ErrOnly (f v) tid) :
    ErrOnly (mkFeat s e k >>= f) tid :=
  ErrOnly.bindSafe mkFeat_ne_err hf

theorem ErrOnly.seq_backtrack {β : Type} {tid : Option String} {efk : ExonFeatureKind}
    {l : List Exon} {rem : Nat} {f : List Exon × Nat → PRes β}
    (hf : ∀ v, ErrOnly (f v) tid) :
    ErrOnly (backtrack_and_push efk l rem >>= f) tid :=
  ErrOnly.bindSafe (fun _ => backtrack_err) hf

theorem ErrOnly.pushExnC {sn : String} {strand : Strand} {tid gid eid : Option String}
    {start e : Nat} {fs : List ExonFeature} {acc : List Exon} {r1 r2 : Nat}
    {tid' : Option String} :
    ErrOnly (pushExn sn strand tid gid eid start e fs acc r1 r2) tid' := by
  intro x h; cases h

theorem PRes.pureBind {α β : Type} (a : α) (f : α → PRes β) :
    (pure a : PRes α) >>= f = f a := rfl

set_option maxHeartbeats 1000000 in
/-- The first synthesis branch errors only with `CodingTooSmall`. -/
theorem synStepA_errOnly {sn : String} {σ : Strand} {tid gid eid : Option String}
    {c0 c1 : Nat} {utr1 utr2 : ExonFeatureKind} {st : SynSt} {start e : Nat} :
    ErrOnly (synStepA sn σ tid gid eid c0 c1 utr1 utr2 st start e) tid := by
  unfold synStepA
  cases σ <;>
    (dsimp only
     repeat'
       first
       | exact ErrOnly.pushExnC
       | exact ErrOnly.okC _
       | exact ErrOnly.crashC
       | exact ErrOnly.errC
       | (apply ErrOnly.seq_chkSub; intro v)
       | (apply ErrOnly.seq_chkAdd; intro v)
       | (apply ErrOnly.seq_mkFeat; intro v)
       | (apply ErrOnly.seq_backtrack; intro v)
       | (rw [PRes.pureBind])
       | split)

set_option maxHeartbeats 1000000 in
/-- The second synthesis branch errors only with `CodingTooSmall`. -/
theorem synStepB_errOnly {sn : String} {σ : Strand} {tid gid eid : Option String}
    {c0 c1 : Nat} {utr2 : ExonFeatureKind} {st : SynSt} {start e : Nat} :
    ErrOnly (synStepB sn σ tid gid eid c0 c1 utr2 st start e) tid := by
  unfold synStepB
  cases σ <;>
    (dsimp only
     repeat'
       first
       | exact ErrOnly.pushExnC
       | exact ErrOnly.okC _
       | exact ErrOnly.crashC
       | exact ErrOnly.errC
       | (apply ErrOnly.seq_chkSub; intro v)
       | (apply ErrOnly.seq_chkAdd; intro v)
       | (apply ErrOnly.seq_mkFeat; intro v)
       | (apply ErrOnly.seq_backtrack; intro v)
       | (rw [PRes.pureBind])
       | split)

set_option maxHeartbeats 1000000 in
/-- The third synthesis branch errors only with `CodingTooSmall`
(in fact it never errors; it shares the shape lemma). -/
theorem synStepC_errOnly {sn : String} {σ : Strand} {tid gid eid : Option String}
    {c1 : Nat} {utr2 : ExonFeatureKind} {st : SynSt} {start e : Nat} :
    ErrOnly (synStepC sn σ tid gid eid c1 utr2 st start e) tid := by
  unfold synStepC
  cases σ <;>
    (dsimp only
     repeat'
       first
       | exact ErrOnly.pushExnC
       | exact ErrOnly.okC _
       | exact ErrOnly.crashC
       | exact ErrOnly.errC
       | (apply ErrOnly.seq_chkSub; intro v)
       | (apply ErrOnly.seq_chkAdd; intro v)
       | (apply ErrOnly.seq_mkFeat; intro v)
       | (apply ErrOnly.seq_backtrack; intro v)
       | (rw [PRes.pureBind])
       | split)

set_option maxHeartbeats 1000000 in
/-- The fourth synthesis branch never errors. -/
theorem synStepD_errOnly {sn : String} {σ : Strand} {tid gid eid : Option String}
    {utr2 : ExonFeatureKind} {st : SynSt} {start e : Nat} :
    ErrOnly (synStepD sn σ tid gid eid utr2 st start e) tid := by
  unfold synStepD
  cases σ <;>
    (dsimp only
     repeat'
       first
       | exact ErrOnly.pushExnC
       | exact ErrOnly.okC _
       | exact ErrOnly.crashC
       | exact ErrOnly.errC
       | (apply ErrOnly.seq_chkSub; intro v)
       | (apply ErrOnly.seq_chkAdd; intro v)
       | (apply ErrOnly.seq_mkFeat; intro v)
       | (apply ErrOnly.seq_backtrack; intro v)
       | (rw [PRes.pureBind])
       | split)

/-- One synthesis step errors only with `CodingTooSmall`. -/
theorem synStep_errOnly {sn : String} {σ : Strand} {tid gid eid : Option String}
    {c0 c1 : Nat} {utr1 utr2 : ExonFeatureKind} {st : SynSt} {c : Coord} :
    ErrOnly (synStep sn σ tid gid eid c0 c1 utr1 utr2 st c) tid := by
  unfold synStep
  dsimp only
  repeat'
    first
    | exact ErrOnly.crashC
    | exact synStepA_errOnly
    | exact synStepB_errOnly
    | exact synStepC_errOnly
    | exact synStepD_errOnly
    | split

/-- The whole synthesis walk errors only with `CodingTooSmall`. -/
theorem synFold_errOnly {sn : String} {σ : Strand} {tid gid eid : Option String}
    {c0 c1 : Nat} {utr1 utr2 : ExonFeatureKind} {st : SynSt} {l : List Coord} :
    ErrOnly (synFold sn σ tid gid eid c0 c1 utr1 utr2 st l) tid := by
  induction l generalizing st with
  | nil => exact ErrOnly.okC _
  | cons hd tl ih =>
      unfold synFold
      exact ErrOnly.seq synStep_errOnly (fun _ => ih)

/-- `infer_exon_features` errors only with `CodingTooSmall`. -/
theorem infer_exon_features_errOnly {exon_coords : List Coord} {coding_r : Coord}
    {sn : String} {σ : Strand} {tid gid eid : Option String} {x : ModelError} :
    infer_exon_features exon_coords coding_r sn σ tid gid eid = .err x →
    x = ModelError.CodingTooSmall tid := by
  intro h
  unfold infer_exon_features at h
  refine @ErrOnly.seq _ _ tid _ _ synFold_errOnly (fun a => ?_) x h
  cases σ <;> exact ErrOnly.okC _

theorem mem_insertCoord {x y : Coord} {l : List Coord} :
    y ∈ insertCoord x l ↔ y = x ∨ y ∈ l := by
  induction l with
  | nil => simp [insertCoord]
  | cons hd tl ih =>
      unfold insertCoord
      split
      · simp
      · simp [ih]; tauto

theorem mem_sortCoords {y : Coord} {l : List Coord} : y ∈ sortCoords l ↔ y ∈ l := by
  induction l with
  | nil => simp [sortCoords]
  | cons hd tl ih => simp [sortCoords, mem_insertCoord, ih]

theorem cineFold_eq (m : List Coord) (c0 c1 : Nat) :
    cineFold m c0 c1 =
      (m.any (fun p => decide (p.1 ≤ c0) && decide (c0 ≤ p.2)),
       m.any (fun p => decide (p.1 ≤ c1) && decide (c1 ≤ p.2))) := by
  have go : ∀ (l : List Coord) (acc : Bool × Bool),
      l.foldl (fun acc c =>
        (acc.1 || (decide (c.1 ≤ c0) && decide (c0 ≤ c.2)),
         acc.2 || (decide (c.1 ≤ c1) && decide (c1 ≤ c.2)))) acc =
      (acc.1 || l.any (fun p => decide (p.1 ≤ c0) && decide (c0 ≤ p.2)),
       acc.2 || l.any (fun p => decide (p.1 ≤ c1) && decide (c1 ≤ p.2))) := by
    intro l
    induction l with
    | nil => simp
    | cons hd tl ih => intro acc; simp [List.foldl_cons, ih, Bool.or_assoc]
  simpa [cineFold] using go m (false, false)

theorem any_insertCoord (x : Coord) (l : List Coord) (p : Coord → Bool) :
    (insertCoord x l).any p = (p x || l.any p) := by
  induction l with
  | nil => simp [insertCoord]
  | cons hd tl ih =>
      unfold insertCoord
      split
      · simp
      · simp [ih, Bool.or_left_comm]

theorem any_sortCoords (l : List Coord) (p : Coord → Bool) :
    (sortCoords l).any p = l.any p := by
  induction l with
  | nil => rfl
  | cons hd tl ih => simp [sortCoords, any_insertCoord, ih]

/-- The stop-codon-room check failing *cleanly* (without a `u64`
underflow or overflow panic), as a predicate on the post-normalization
coding coordinates and the outer exon bounds; on Reverse and Unknown the
subtraction `c0 - 3` requires `3 ≤ c0` to avoid the panic. -/
def roomFailsCleanly (strand : Strand) (c0 c1 er0 er1 : Nat) : Prop :=
  match strand with
  | .Forward => c1 + 3 < U64SIZE ∧ er1 < c1 + 3
  | .Reverse => 3 ≤ c0 ∧ c0 < er0 + 3
  | .Unknown => 3 ≤ c0 ∧ (er0 + 3 ≤ c0 → (c1 + 3 < U64SIZE ∧ er1 < c1 + 3))

theorem stopRoom_ne_err {σ : Strand} {c0 c1 er0 er1 : Nat} :
    ∀ x, ¬ stopRoom σ c0 c1 er0 er1 = .err x := by
  intro x h
  unfold stopRoom at h
  cases σ
  case Forward =>
    simp only [PRes.bind_eq_bind, PRes.bind_eq_err_iff, chkAdd_eq_ok, chkAdd_ne_err,
      PRes.pure_eq_ok, PRes.ok_ne_err, and_false, exists_false, false_or, or_false,
      false_and] at h
  case Reverse =>
    simp only [PRes.bind_eq_bind, PRes.bind_eq_err_iff, chkSub_eq_ok, chkSub_ne_err,
      PRes.pure_eq_ok, PRes.ok_ne_err, and_false, exists_false, false_or, or_false,
      false_and] at h
  case Unknown =>
    simp only [PRes.bind_eq_bind, PRes.bind_eq_err_iff, chkSub_eq_ok, chkSub_ne_err,
      or_false] at h
    obtain ⟨a, ⟨h3, rfl⟩, h⟩ := h
    split at h
    · simp only [PRes.bind_eq_bind, PRes.bind_eq_err_iff, chkAdd_eq_ok, chkAdd_ne_err,
        PRes.pure_eq_ok, PRes.ok_ne_err, and_false, exists_false, false_or, or_false,
        false_and] at h
    · simp at h

theorem stopRoom_eq_false_iff {σ : Strand} {c0 c1 er0 er1 : Nat} :
    stopRoom σ c0 c1 er0 er1 = .ok false ↔ roomFailsCleanly σ c0 c1 er0 er1 := by
  unfold stopRoom roomFailsCleanly
  cases σ
  · simp only [PRes.bind_eq_bind, PRes.bind_eq_ok_iff, chkAdd_eq_ok, PRes.pure_eq_ok,
      PRes.ok.injEq]
    constructor
    · rintro ⟨a, ⟨hov, rfl⟩, hd⟩
      simp only [decide_eq_false_iff_not, not_le] at hd
      exact ⟨hov, hd⟩
    · rintro ⟨hov, hlt⟩
      exact ⟨c1 + 3, ⟨hov, rfl⟩, by simp; omega⟩
  · simp only [PRes.bind_eq_bind, PRes.bind_eq_ok_iff, chkSub_eq_ok, PRes.pure_eq_ok,
      PRes.ok.injEq]
    constructor
    · rintro ⟨a, ⟨h3, rfl⟩, hd⟩
      simp only [decide_eq_false_iff_not, not_le] at hd
      exact ⟨h3, by omega⟩
    · rintro ⟨h3, hlt⟩
      exact ⟨c0 - 3, ⟨h3, rfl⟩, by simp; omega⟩
  · simp only [PRes.bind_eq_bind, PRes.bind_eq_ok_iff, chkSub_eq_ok]
    constructor
    · rintro ⟨a, ⟨h3, rfl⟩, hd⟩
      split at hd
      · simp only [PRes.bind_eq_bind, PRes.bind_eq_ok_iff, chkAdd_eq_ok, PRes.pure_eq_ok,
          PRes.ok.injEq] at hd
        obtain ⟨b, ⟨hov, rfl⟩, hb⟩ := hd
        simp only [decide_eq_false_iff_not, not_le] at hb
        exact ⟨h3, fun _ => ⟨hov, hb⟩⟩
      · exact ⟨h3, fun hc => absurd (by omega : er0 ≤ c0 - 3) (by assumption)⟩
    · rintro ⟨h3, himp⟩
      refine ⟨c0 - 3, ⟨h3, rfl⟩, ?_⟩
      split
      · obtain ⟨hov, hlt⟩ := himp (by omega)
        simp only [PRes.bind_eq_bind, PRes.bind_eq_ok_iff, chkAdd_eq_ok, PRes.pure_eq_ok,
          PRes.ok.injEq]
        exact ⟨c1 + 3, ⟨hov, rfl⟩, by simp; omega⟩
      · rfl

theorem stopRoom_true_of_not_fails {σ : Strand} {c0 c1 er0 er1 : Nat} {b : Bool}
    (h : stopRoom σ c0 c1 er0 er1 = .ok b) (hn : ¬ roomFailsCleanly σ c0 c1 er0 er1) :
    b = true := by
  cases b
  · exact absurd (stopRoom_eq_false_iff.mp h) hn
  · rfl

theorem all_lt_iff (ecs : List Coord) :
    (ecs.all (fun c => decide (c.1 < c.2)) = true) ↔ ∀ p ∈ ecs, p.1 < p.2 := by
  simp [List.all_eq_true]

set_option maxHeartbeats 1000000 in
theorem infer_exons_CTL {sn : String} {ts te : Nat} {σ : Strand}
    {tid gid eid : Option String} {ecs : List Coord} {cc : Option Coord}
    {incl : Bool} {c0 c1 : Nat}
    (hadj : adjustedCoding incl cc σ (sortCoords ecs) = .ok (some (c0, c1))) :
    (infer_exons sn ts te σ tid gid eid ecs cc incl = .err (.CodingTooLarge tid) ↔
      (ecs ≠ [] ∧ (∀ p ∈ ecs, p.1 < p.2) ∧
       ((sortCoords ecs).headD (0, 0)).1 = ts ∧
       ((sortCoords ecs).getLastD (0, 0)).2 = te ∧
       c0 < c1 ∧
       ((sortCoords ecs).headD (0, 0)).1 ≤ c0 ∧
       c1 ≤ ((sortCoords ecs).getLastD (0, 0)).2 ∧
       (∃ p ∈ ecs, p.1 ≤ c0 ∧ c0 ≤ p.2) ∧
       (∃ p ∈ ecs, p.1 ≤ c1 ∧ c1 ≤ p.2) ∧
       roomFailsCleanly σ c0 c1 ((sortCoords ecs).headD (0, 0)).1
         ((sortCoords ecs).getLastD (0, 0)).2)) := by
  unfold infer_exons
  by_cases h1 : ecs = []
  · rw [if_pos h1]
    simp only [PRes.err.injEq, reduceCtorEq, false_iff]
    exact fun hR => hR.1 h1
  rw [if_neg h1]
  by_cases h2 : ∀ p ∈ ecs, p.1 < p.2
  case neg =>
    rw [if_pos (by simpa [all_lt_iff] using h2)]
    simp only [PRes.err.injEq, reduceCtorEq, false_iff]
    exact fun hR => h2 hR.2.1
  rw [if_neg (by simpa [all_lt_iff] using h2)]
  dsimp only
  rw [PRes.bind_eq_bind, hadj, PRes.bind_ok]
  by_cases h3 : ((sortCoords ecs).headD (0, 0)).1 = ts ∧ ((sortCoords ecs).getLastD (0, 0)).2 = te
  case neg =>
    rw [if_pos (by tauto)]
    simp only [PRes.err.injEq, reduceCtorEq, false_iff]
    exact fun hR => h3 ⟨hR.2.2.1, hR.2.2.2.1⟩
  obtain ⟨h3a, h3b⟩ := h3
  rw [if_neg (by tauto)]
  dsimp only
  by_cases h4 : c1 ≤ c0
  · rw [if_pos h4]
    simp only [PRes.err.injEq, reduceCtorEq, false_iff]
    exact fun hR => absurd hR.2.2.2.2.1 (by omega)
  rw [if_neg h4]
  by_cases h5 : c0 < ((sortCoords ecs).headD (0, 0)).1 ∨ ((sortCoords ecs).getLastD (0, 0)).2 < c1
  · rw [if_pos h5]
    simp only [PRes.err.injEq, reduceCtorEq, false_iff]
    rintro ⟨-, -, -, -, -, he1, he2, -⟩
    rcases h5 with h5 | h5 <;> omega
  rw [if_neg h5]
  push_neg at h5
  obtain ⟨h5a, h5b⟩ := h5
  rw [cineFold_eq]
  by_cases h6 : (∃ p ∈ ecs, p.1 ≤ c0 ∧ c0 ≤ p.2) ∧ (∃ p ∈ ecs, p.1 ≤ c1 ∧ c1 ≤ p.2)
  case neg =>
    rw [if_pos ?side]
    case side =>
      dsimp only
      rw [Decidable.not_and_iff_or_not] at h6
      rcases h6 with h6 | h6
      · left
        rw [any_sortCoords]
        simpa using h6
      · right
        rw [any_sortCoords]
        simpa using h6
    simp only [PRes.err.injEq, reduceCtorEq, false_iff]
    exact fun hR => h6 ⟨hR.2.2.2.2.2.2.2.1, hR.2.2.2.2.2.2.2.2.1⟩
  obtain ⟨h6a, h6b⟩ := h6
  rw [if_neg ?side2]
  case side2 =>
    dsimp only
    rw [not_or, not_not, not_not]
    constructor
    · rw [any_sortCoords]; simpa using h6a
    · rw [any_sortCoords]; simpa using h6b
  rw [PRes.bind_eq_bind]
  rcases hsr : stopRoom σ c0 c1 ((sortCoords ecs).headD (0, 0)).1 ((sortCoords ecs).getLastD (0, 0)).2 with b | x | _
  · rw [PRes.bind_ok]
    cases b
    · rw [if_pos (by simp)]
      simp only [true_iff]
      refine ⟨h1, h2, h3a, h3b, by omega, h5a, h5b, h6a, h6b, ?_⟩
      exact stopRoom_eq_false_iff.mp hsr
    · rw [if_neg (by simp)]
      constructor
      · intro h
        have := infer_exon_features_errOnly h
        cases this
      · rintro ⟨-, -, -, -, -, -, -, -, -, hroom⟩
        rw [← stopRoom_eq_false_iff] at hroom
        rw [hsr] at hroom
        cases hroom
  · exact absurd hsr (stopRoom_ne_err x)
  · rw [PRes.bind_crash]
    simp only [reduceCtorEq, false_iff]
    rintro ⟨-, -, -, -, -, -, -, -, -, hroom⟩
    rw [← stopRoom_eq_false_iff] at hroom
    rw [hsr] at hroom
    cases hroom

instance roomFailsCleanly.dec (σ : Strand) (c0 c1 er0 er1 : Nat) :
    Decidable (roomFailsCleanly σ c0 c1 er0 er1) := by
  unfold roomFailsCleanly; cases σ <;> infer_instance

/-! Claim theorems. -/

/-- Claim C1, counterexample.  The claim states that every transcript
built from exon coordinates and a coding coordinate on a known strand has
total `StartCodon` span 3 and total `StopCodon` span 3.  For the Forward
transcript `[0,20)` with exons `[0,4)`, `[6,20)` and coding region
`[2,6)` (not including the stop codon), the build succeeds but only two
exonic bases are available for the start codon inside the coding region
(`[2,4)`), so the total `StartCodon` span is 2, not 3. -/
theorem C1_counterexample :
    onBuild (TBuilder.build (coordTB 0 20 .Forward [(0, 4), (6, 20)] (some (2, 6)) false))
      (fun t => (t.startCodonSpan, t.stopCodonSpan)) = some (2, 3) := by
  decide

/-- Claim C3 (confirmed): for strand Reverse, exons
`[34850361,34855982)`, `[34856555,34856739)`, `[34858839,34859045)`,
coding coordinate `(34855698, 34855977)` with `coding_incl_stop`, the
build succeeds, the normalized coding start (the 5'-most CDS start) is
34855701, a `StopCodon` spans exactly `[34855698,34855701)` and a
`StartCodon` spans exactly `[34855974,34855977)`. -/
theorem C3_reverse_split_stop_codon :
    onBuild (TBuilder.build (coordTB 34850361 34859045 .Reverse
        [(34850361, 34855982), (34856555, 34856739), (34858839, 34859045)]
        (some (34855698, 34855977)) true))
      (fun t =>
        (t.firstCDSStart,
         t.hasFeat (isStopAt 34855698 34855701),
         t.hasFeat (isStartAt 34855974 34855977))) =
    some (some 34855701, true, true) := by
  decide

/-- Claim C4: evaluation of the code at the failing input.  For strand
Reverse, transcript `[0,10)`, exons `[(0,10)]`, coding coordinate `(1,5)`
(smaller than 3), `TBuilder::build` panics instead of returning a
`Result`: the stop-room check computes `coding_r.0 - 3` on `u64`, which
underflows (debug panic; in a release build the wrapped value passes the
check and `infer_exon_features` then panics unwrapping the invalid
interval `[2^64 - 2, 1)` for the stop codon). -/
theorem C4_reverse_small_coding_panics :
    TBuilder.build (coordTB 0 10 .Reverse [(0, 10)] (some (1, 5)) false) =
      PRes.crash := by
  decide

/-- Claim C6: evaluation of the code at the failing input.  `Gene::set_id`
calls `Transcript::set_id` (not `set_gene_id`) on each contained
transcript, so after `set_id(Some("g1"))` on a gene built with gene id
`"g0"` and one transcript `"t1"`, the transcript's *gene* identifier is
still `"g0"` (the claim and the method's own documentation say it becomes
`"g1"`); instead the transcript's own identifier and its exon's
transcript identifier were overwritten with `"g1"`. -/
theorem C6_set_id_divergence :
    onGene (GBuilder.build
        { seq_name := "chr1", start := 0, stop := 100, strand := some .Forward,
          strand_char := none, id := some "g0", attributes := [],
          transcripts := none,
          transcript_coords := some [("t1", ((0, 100), [(0, 100)], none))],
          transcript_coding_incl_stop := false })
      (fun g =>
        (g.set_id (some "g1")).transcripts.map (fun p =>
          (p.2.gene_id, p.2.id,
           p.2.exons.map (fun x => (x.gene_id, x.transcript_id))))) =
    some [(some "g0", some "g1", [(some "g0", some "g1")])] := by
  rfl

/-- Claim C7, counterexample.  The claim states that the sub-features
within each exon are pairwise non-overlapping (and ascending).  For the
Forward transcript `[0,10)` with a single exon and coding region `[2,6)`,
the build succeeds with exon features `UTR5 [0,2)`, `StartCodon [2,5)`,
`CDS [2,6)`, `StopCodon [6,9)`, `UTR3 [9,10)`: the `StartCodon` overlaps
the `CDS` on `[2,5)` (GTF convention), so the features are not pairwise
non-overlapping. -/
theorem C7_counterexample :
    onBuild (TBuilder.build (coordTB 0 10 .Forward [(0, 10)] (some (2, 6)) false))
      (fun t => t.exons.all (fun x => featsNOA x.features)) = some false := by
  decide

/-- Claim C8, counterexample.  The claim states that a supplied start
coordinate equal to the end coordinate is rejected with
`InvalidInterval`; but `Interval::new` only rejects `start > end`, and an
exon with `start = end = 10` builds successfully (this is the
repository's own test `ebuilder_alt1`). -/
theorem C8_counterexample :
    EBuilder.build
      { seq_name := "chrO", start := 10, stop := 10, strand := some .Reverse,
        strand_char := some '-', id := none, transcript_id := none,
        gene_id := none, attributes := [("name", "ex1")], features := [] } =
    PRes.ok
      { seq_name := "chrO", start := 10, stop := 10, strand := .Reverse,
        id := none, gene_id := none, transcript_id := none,
        attributes := [("name", "ex1")], features := [] } := by
  decide

/-- Claim C2, counterexample.  The claim states that building with
`coding_incl_stop` from a coding coordinate `(c0, c1)` and then querying
`coding_coord(incl_stop=true)` returns `(c0, c1)` exactly.  For the
Forward transcript `[0,20)` with exons `[0,5)`, `[10,20)` and coding
coordinate `(2,12)`: normalization strips only the two exonic bases
`[10,12)` (the walk stops at the exon boundary because the next exon
`[0,5)` does not contain the moved endpoint 10), the stop codon is then
re-emitted as `[10,13)`, and the query returns `(2,13)`, not `(2,12)`. -/
theorem C2_counterexample :
    (do
      let t ← TBuilder.build (coordTB 0 20 .Forward [(0, 5), (10, 20)] (some (2, 12)) true)
      t.coding_coord true : PRes (Option Coord)) = PRes.ok (some (2, 13)) := by
  decide

/-- Claim C9 (confirmed): a `TBuilder` with a valid interval and a strand
but neither pre-made exons, nor exon coordinates, nor a coding coordinate
builds successfully and yields a transcript with an empty exon list (no
`UnmatchedExons` check is performed against the transcript bounds). -/
theorem C9_no_exon_inputs (sn : String) (s e : Nat) (σ : Strand)
    (tid gid : Option String) (attrs : List (String × String)) (incl : Bool)
    (h : s ≤ e) :
    TBuilder.build
      { seq_name := sn, start := s, stop := e, strand := some σ,
        strand_char := none, id := tid, gene_id := gid, attributes := attrs,
        exons := none, exon_coords := none, coding_coord := none,
        coding_incl_stop := incl } =
    PRes.ok { seq_name := sn, start := s, stop := e, strand := σ, id := tid,
              gene_id := gid, attributes := attrs, exons := [] } := by
  simp [TBuilder.build, coord_to_interval, resolve_strand_input,
        resolve_exons_input, h]

/-- Witness for C9 at a concrete input. -/
theorem C9_witness :
    TBuilder.build
      { seq_name := "chrT", start := 5, stop := 9, strand := some .Forward,
        strand_char := none, id := some "trx", gene_id := none, attributes := [],
        exons := none, exon_coords := none, coding_coord := none,
        coding_incl_stop := false } =
    PRes.ok { seq_name := "chrT", start := 5, stop := 9, strand := .Forward,
              id := some "trx", gene_id := none, attributes := [], exons := [] } :=
  C9_no_exon_inputs "chrT" 5 9 .Forward (some "trx") none [] false (by decide)

/-- Claim C8, amended: every builder fails with `InvalidInterval` exactly
when the supplied start coordinate is strictly greater than the supplied
end coordinate; an input with `start == end` is accepted (see the
counterexample, which follows the repository's own test
`ebuilder_alt1`).  This theorem proves the failing direction for all
three builders at once. -/
theorem C8_amended (sn : String) (s e : Nat) (sv : Option Strand)
    (sc : Option Char) (i tid gid : Option String)
    (attrs : List (String × String)) (feats : List ExonFeature)
    (exns : Option (List Exon)) (ecs : Option (List Coord))
    (cc : Option Coord) (incl : Bool)
    (trxs : Option (List (String × Transcript)))
    (tcs : Option (List (String × RawTrxCoords)))
    (h : e < s) :
    EBuilder.build
      { seq_name := sn, start := s, stop := e, strand := sv, strand_char := sc,
        id := i, transcript_id := tid, gene_id := gid, attributes := attrs,
        features := feats } = PRes.err .InvalidInterval ∧
    TBuilder.build
      { seq_name := sn, start := s, stop := e, strand := sv, strand_char := sc,
        id := i, gene_id := gid, attributes := attrs, exons := exns,
        exon_coords := ecs, coding_coord := cc, coding_incl_stop := incl } =
      PRes.err .InvalidInterval ∧
    GBuilder.build
      { seq_name := sn, start := s, stop := e, strand := sv, strand_char := sc,
        id := i, attributes := attrs, transcripts := trxs,
        transcript_coords := tcs, transcript_coding_incl_stop := incl } =
      PRes.err .InvalidInterval := by
  have h' : ¬ (s ≤ e) := by omega
  refine ⟨?_, ?_, ?_⟩ <;>
    simp [EBuilder.build, TBuilder.build, GBuilder.build, coord_to_interval, h']

/-- Witness for the amended C8 at a concrete input. -/
theorem C8_witness :
    EBuilder.build
      { seq_name := "chrE", start := 20, stop := 10, strand := none,
        strand_char := none, id := none, transcript_id := none, gene_id := none,
        attributes := [], features := [] } = PRes.err .InvalidInterval :=
  (C8_amended "chrE" 20 10 none none none none none [] [] none none none false
    none none (by decide)).1

theorem PRes.bind_pure_err {α β : Type} (m : PRes α) (g : α → β) (x : ModelError) :
    (m.bind fun a => pure (g a)) = .err x ↔ m = .err x := by
  cases m <;> simp [PRes.bind]

/-- Claim C5, counterexample.  The claim states an *iff*: the build fails
with `CodingTooLarge` exactly when the stop-room check fails.  For the
Forward transcript `[0,10)`, exons `[(0,10)]`, coding `(2,11)`, the room
check fails (`11 + 3 > 10`), yet the build fails with the earlier error
`CodingNotFullyEnveloped` instead of `CodingTooLarge` (and on Reverse a
coding start below 3 makes the room check itself panic, see C4). -/
theorem C5_counterexample :
    TBuilder.build (coordTB 0 10 .Forward [(0, 10)] (some (2, 11)) false) =
      PRes.err (.CodingNotFullyEnveloped none) ∧ ¬ (11 + 3 ≤ 10) := by
  constructor
  · decide
  · decide

/-- Claim C5, amended: given that normalization produced the coding
coordinate `(c0, c1)`, the build fails with `CodingTooLarge` *iff* all the
earlier validations pass (valid transcript interval, nonempty valid exon
coordinates, sorted bounds matching the transcript bounds, a proper,
enveloped coding interval with both endpoints inside exons) *and* the
post-normalization stop-room check fails without panicking — Forward:
`c1 + 3 ≤ last exon end` fails (and `c1 + 3` does not overflow `u64`);
Reverse: `c0 - 3 ≥ first exon start` fails (and `c0 ≥ 3`, else the check
itself panics); Unknown: the conjunction of both, short-circuited. -/
theorem C5_amended (sn : String) (s e : Nat) (σ : Strand) (tid gid : Option String)
    (attrs : List (String × String)) (ecs : List Coord) (cc : Coord) (incl : Bool)
    (c0 c1 : Nat)
    (hadj : adjustedCoding incl (some cc) σ (sortCoords ecs) = .ok (some (c0, c1))) :
    (TBuilder.build
        { seq_name := sn, start := s, stop := e, strand := some σ, strand_char := none,
          id := tid, gene_id := gid, attributes := attrs, exons := none,
          exon_coords := some ecs, coding_coord := some cc, coding_incl_stop := incl } =
      .err (.CodingTooLarge tid) ↔
      (s ≤ e ∧ ecs ≠ [] ∧ (∀ p ∈ ecs, p.1 < p.2) ∧
       ((sortCoords ecs).headD (0, 0)).1 = s ∧ ((sortCoords ecs).getLastD (0, 0)).2 = e ∧
       c0 < c1 ∧ ((sortCoords ecs).headD (0, 0)).1 ≤ c0 ∧
       c1 ≤ ((sortCoords ecs).getLastD (0, 0)).2 ∧
       (∃ p ∈ ecs, p.1 ≤ c0 ∧ c0 ≤ p.2) ∧ (∃ p ∈ ecs, p.1 ≤ c1 ∧ c1 ≤ p.2) ∧
       roomFailsCleanly σ c0 c1 ((sortCoords ecs).headD (0, 0)).1
         ((sortCoords ecs).getLastD (0, 0)).2)) := by
  unfold TBuilder.build
  by_cases hse : s ≤ e
  · simp only [coord_to_interval, if_pos hse, PRes.bind_eq_bind, PRes.bind_ok,
      resolve_strand_input, resolve_exons_input]
    rw [PRes.bind_pure_err]
    rw [infer_exons_CTL hadj]
    exact ⟨fun h => ⟨hse, h⟩, fun h => h.2⟩
  · simp only [coord_to_interval, if_neg hse, PRes.bind_eq_bind, PRes.bind_err,
      PRes.err.injEq, reduceCtorEq, false_iff]
    exact fun hR => hse hR.1

/-- Witness for the amended C5 at a concrete input where the room check
fails cleanly and every earlier validation passes. -/
theorem C5_witness :
    TBuilder.build
      { seq_name := "chr1", start := 0, stop := 10, strand := some .Forward,
        strand_char := none, id := none, gene_id := none, attributes := [],
        exons := none, exon_coords := some [(0, 10)], coding_coord := some (2, 8),
        coding_incl_stop := false } = .err (.CodingTooLarge none) :=
  (C5_amended "chr1" 0 10 .Forward none none [] [(0, 10)] (2, 8) false 2 8
    (by decide)).mpr (by decide)

theorem adjust_fwd_contained {L : List Coord} :
    ∀ (l : List Coord) (rem e e' : Nat), (∀ p ∈ l, p ∈ L) →
    (∃ p ∈ L, p.1 ≤ e ∧ e ≤ p.2) →
    adjust_fwd rem e l = .ok e' →
    ∃ p ∈ L, p.1 ≤ e' ∧ e' ≤ p.2 := by
  intro l
  induction l with
  | nil =>
      intro rem e e' _ hc h
      unfold adjust_fwd at h
      cases h
      exact hc
  | cons hd tl ih =>
      intro rem e e' hsub hc h
      unfold adjust_fwd at h
      obtain ⟨es, ee⟩ := hd
      split at h
      · rename_i hin
        simp only [PRes.bind_eq_bind] at h
        rcases hcs : chkSub e rem with d | x | _ <;> rw [hcs] at h
        · rw [PRes.bind_ok] at h
          obtain ⟨hle, rfl⟩ := chkSub_eq_ok.mp hcs
          split at h
          · cases h
            refine ⟨(es, ee), hsub _ (by simp), by simp; omega⟩
          · exact ih _ _ _ (fun p hp => hsub p (by simp [hp]))
              ⟨(es, ee), hsub _ (by simp), by simp; omega⟩ h
        · cases h
        · cases h
      · exact ih rem e e' (fun p hp => hsub p (by simp [hp])) hc h


theorem adjust_rev_contained {L : List Coord} :
    ∀ (l : List Coord) (rem s s' : Nat), (∀ p ∈ l, p ∈ L) →
    (∃ p ∈ L, p.1 ≤ s ∧ s ≤ p.2) →
    adjust_rev rem s l = .ok s' →
    ∃ p ∈ L, p.1 ≤ s' ∧ s' ≤ p.2 := by
  intro l
  induction l with
  | nil =>
      intro rem s s' _ hc h
      unfold adjust_rev at h
      cases h
      exact hc
  | cons hd tl ih =>
      intro rem s s' hsub hc h
      unfold adjust_rev at h
      obtain ⟨es, ee⟩ := hd
      split at h
      · rename_i hin
        simp only [PRes.bind_eq_bind] at h
        rcases hca : chkAdd s rem with d | x | _ <;> rw [hca] at h
        · rw [PRes.bind_ok] at h
          obtain ⟨hov, rfl⟩ := chkAdd_eq_ok.mp hca
          split at h
          · cases h
            refine ⟨(es, ee), hsub _ (by simp), by simp; omega⟩
          · exact ih _ _ _ (fun p hp => hsub p (by simp [hp]))
              ⟨(es, ee), hsub _ (by simp), by simp; omega⟩ h
        · cases h
        · cases h
      · exact ih rem s s' (fun p hp => hsub p (by simp [hp])) hc h

theorem adjust_fwd_ne_err :
    ∀ (l : List Coord) (rem e : Nat) (x : ModelError), ¬ adjust_fwd rem e l = .err x := by
  intro l
  induction l with
  | nil => intro rem e x h; cases h
  | cons hd tl ih =>
      intro rem e x h
      unfold adjust_fwd at h
      obtain ⟨es, ee⟩ := hd
      split at h
      · simp only [PRes.bind_eq_bind] at h
        rcases hcs : chkSub e rem with d | y | _ <;> rw [hcs] at h
        · rw [PRes.bind_ok] at h
          split at h
          · cases h
          · exact ih _ _ _ h
        · exact chkSub_ne_err y hcs
        · cases h
      · exact ih _ _ _ h

theorem adjust_rev_ne_err :
    ∀ (l : List Coord) (rem s : Nat) (x : ModelError), ¬ adjust_rev rem s l = .err x := by
  intro l
  induction l with
  | nil => intro rem s x h; cases h
  | cons hd tl ih =>
      intro rem s x h
      unfold adjust_rev at h
      obtain ⟨es, ee⟩ := hd
      split at h
      · simp only [PRes.bind_eq_bind] at h
        rcases hca : chkAdd s rem with d | y | _ <;> rw [hca] at h
        · rw [PRes.bind_ok] at h
          split at h
          · cases h
          · exact ih _ _ _ h
        · exact chkAdd_ne_err y hca
        · cases h
      · exact ih _ _ _ h

theorem adjustedCoding_ne_err {incl : Bool} {cc : Option Coord} {σ : Strand}
    {m : List Coord} : ∀ x, ¬ adjustedCoding incl cc σ m = .err x := by
  intro x h
  unfold adjustedCoding at h
  split at h
  · split at h
    · unfold adjust_coding_coord at h
      cases σ
      · simp only [PRes.bind_eq_bind] at h
        rcases ha : adjust_fwd 3 _ m.reverse with d | y | _ <;> rw [ha] at h
        · rw [PRes.bind_ok] at h; cases h
        · exact adjust_fwd_ne_err _ _ _ y ha
        · cases h
      · simp only [PRes.bind_eq_bind] at h
        rcases ha : adjust_rev 3 _ m with d | y | _ <;> rw [ha] at h
        · rw [PRes.bind_ok] at h; cases h
        · exact adjust_rev_ne_err _ _ _ y ha
        · cases h
      · cases h
    · cases h
  · cases h

theorem adjustedCoding_contained {incl : Bool} {σ : Strand} {m : List Coord}
    {a b c0 c1 : Nat}
    (hA : ∃ p ∈ m, p.1 ≤ a ∧ a ≤ p.2) (hB : ∃ p ∈ m, p.1 ≤ b ∧ b ≤ p.2)
    (h : adjustedCoding incl (some (a, b)) σ m = .ok (some (c0, c1))) :
    (∃ p ∈ m, p.1 ≤ c0 ∧ c0 ≤ p.2) ∧ (∃ p ∈ m, p.1 ≤ c1 ∧ c1 ≤ p.2) := by
  unfold adjustedCoding at h
  split at h
  · unfold adjust_coding_coord at h
    cases σ
    · simp only [PRes.bind_eq_bind] at h
      rcases ha : adjust_fwd 3 b m.reverse with d | x | _ <;> rw [ha] at h <;>
        [skip; cases h; cases h]
      rw [PRes.bind_ok] at h
      simp only [PRes.pure_eq_ok, PRes.ok.injEq, Option.some.injEq, Prod.mk.injEq] at h
      obtain ⟨h1, h2⟩ := h
      subst h1
      subst h2
      refine ⟨hA, ?_⟩
      exact adjust_fwd_contained m.reverse 3 b _ (fun p hp => List.mem_reverse.mp hp) hB ha
    · simp only [PRes.bind_eq_bind] at h
      rcases ha : adjust_rev 3 a m with d | x | _ <;> rw [ha] at h <;>
        [skip; cases h; cases h]
      rw [PRes.bind_ok] at h
      simp only [PRes.pure_eq_ok, PRes.ok.injEq, Option.some.injEq, Prod.mk.injEq] at h
      obtain ⟨h1, h2⟩ := h
      subst h1
      subst h2
      refine ⟨?_, hB⟩
      exact adjust_rev_contained m 3 a _ (fun p hp => hp) hA ha
    · simp only [PRes.pure_eq_ok, PRes.ok.injEq, Option.some.injEq, Prod.mk.injEq] at h
      obtain ⟨h1, h2⟩ := h
      subst h1; subst h2
      exact ⟨hA, hB⟩
  · simp only [PRes.pure_eq_ok, PRes.ok.injEq, Option.some.injEq, Prod.mk.injEq] at h
    obtain ⟨h1, h2⟩ := h
    subst h1; subst h2
    exact ⟨hA, hB⟩

theorem boundary_contained {ecs : List Coord} {a : Nat}
    (h2 : ∀ p ∈ ecs, p.1 < p.2) (hA : ∃ p ∈ ecs, a = p.1 ∨ a = p.2) :
    ∃ p ∈ sortCoords ecs, p.1 ≤ a ∧ a ≤ p.2 := by
  obtain ⟨p, hp, hor⟩ := hA
  refine ⟨p, mem_sortCoords.mpr hp, ?_⟩
  have := h2 p hp
  rcases hor with rfl | rfl <;> omega

theorem infer_exons_ne_CII {sn : String} {ts te : Nat} {σ : Strand}
    {tid gid eid : Option String} {ecs : List Coord} {a b : Nat} {incl : Bool}
    (hA : ∃ p ∈ ecs, a = p.1 ∨ a = p.2) (hB : ∃ p ∈ ecs, b = p.1 ∨ b = p.2) :
    ∀ o, ¬ (infer_exons sn ts te σ tid gid eid ecs (some (a, b)) incl =
      .err (.CodingInIntron o)) := by
  intro o h
  unfold infer_exons at h
  by_cases h1 : ecs = []
  · rw [if_pos h1] at h; cases h
  rw [if_neg h1] at h
  by_cases h2 : ∀ p ∈ ecs, p.1 < p.2
  case neg => rw [if_pos (by simpa [all_lt_iff] using h2)] at h; cases h
  rw [if_neg (by simpa [all_lt_iff] using h2)] at h
  dsimp only at h
  rw [PRes.bind_eq_bind] at h
  rcases hadj : adjustedCoding incl (some (a, b)) σ (sortCoords ecs) with v | x | _ <;>
    rw [hadj] at h
  rotate_left
  · exact adjustedCoding_ne_err x hadj
  · cases h
  rw [PRes.bind_ok] at h
  split at h
  · cases h
  rcases v with _ | ⟨c0, c1⟩
  · simp only [PRes.pure_eq_ok] at h; cases h
  dsimp only at h
  split at h
  · cases h
  split at h
  · cases h
  obtain ⟨hc0, hc1⟩ := adjustedCoding_contained
    (boundary_contained h2 hA) (boundary_contained h2 hB) hadj
  rw [cineFold_eq] at h
  split at h
  · rename_i hcine
    dsimp only at hcine
    rcases hcine with hc | hc
    · refine hc ?_
      obtain ⟨p, hp, hb1, hb2⟩ := hc0
      exact List.any_eq_true.mpr ⟨p, hp, by simp [hb1, hb2]⟩
    · refine hc ?_
      obtain ⟨p, hp, hb1, hb2⟩ := hc1
      exact List.any_eq_true.mpr ⟨p, hp, by simp [hb1, hb2]⟩
  rw [PRes.bind_eq_bind] at h
  rcases hsr : stopRoom σ c0 c1 _ _ with bb | x | _ <;> rw [hsr] at h
  rotate_left
  · exact stopRoom_ne_err x hsr
  · cases h
  rw [PRes.bind_ok] at h
  cases bb
  · rw [if_pos (by simp)] at h; cases h
  · rw [if_neg (by simp)] at h
    have := infer_exon_features_errOnly h
    cases this


theorem strand_from_char_ne_CII {c : Char} {o : Option String} :
    ¬ strand_from_char c = .err (.CodingInIntron o) := by
  unfold strand_from_char
  split_ifs <;> simp

theorem resolve_strand_ne_CII {sv : Option Strand} {sc : Option Char} {o : Option String} :
    ¬ resolve_strand_input sv sc = .err (.CodingInIntron o) := by
  unfold resolve_strand_input
  rcases sv with _ | σv <;> rcases sc with _ | c
  · simp
  · exact strand_from_char_ne_CII
  · simp
  · intro h
    simp only [PRes.bind_eq_bind] at h
    rcases hc : strand_from_char c with σc | x | _ <;> rw [hc] at h
    · rw [PRes.bind_ok] at h
      split at h <;> cases h
    · cases h
      exact strand_from_char_ne_CII hc
    · cases h

/-- Claim C10 (confirmed): the `CodingInIntron` validation uses
closed-interval containment on both endpoints, so a coding endpoint equal
to some exon's start or end coordinate counts as lying in that exon, and
a build whose coding endpoints each coincide with some exon's boundary
never fails with `CodingInIntron`. -/
theorem C10_closed_containment (sn : String) (s e : Nat) (sv : Option Strand)
    (sc : Option Char) (tid gid : Option String) (attrs : List (String × String))
    (ecs : List Coord) (a b : Nat) (incl : Bool)
    (hA : ∃ p ∈ ecs, a = p.1 ∨ a = p.2) (hB : ∃ p ∈ ecs, b = p.1 ∨ b = p.2) :
    ∀ o, ¬ (TBuilder.build
        { seq_name := sn, start := s, stop := e, strand := sv, strand_char := sc,
          id := tid, gene_id := gid, attributes := attrs, exons := none,
          exon_coords := some ecs, coding_coord := some (a, b),
          coding_incl_stop := incl } =
      .err (.CodingInIntron o)) := by
  intro o h
  unfold TBuilder.build at h
  by_cases hse : s ≤ e
  · simp only [coord_to_interval, if_pos hse, PRes.bind_eq_bind, PRes.bind_ok] at h
    rcases hrs : resolve_strand_input sv sc with σ | x | _ <;> rw [hrs] at h
    · rw [PRes.bind_ok] at h
      simp only [resolve_exons_input] at h
      rw [PRes.bind_pure_err] at h
      exact infer_exons_ne_CII hA hB o h
    · cases h
      exact resolve_strand_ne_CII hrs
    · cases h
  · simp only [coord_to_interval, if_neg hse, PRes.bind_eq_bind, PRes.bind_err] at h
    cases h

/-- Witness for C10 at a concrete input whose coding endpoints are the
excluded bound of the first exon and the included bound of the second. -/
theorem C10_witness :
    ¬ (TBuilder.build
        { seq_name := "chr1", start := 100, stop := 400, strand := some .Forward,
          strand_char := none, id := none, gene_id := none, attributes := [],
          exons := none, exon_coords := some [(100, 200), (300, 400)],
          coding_coord := some (200, 300), coding_incl_stop := false } =
      .err (.CodingInIntron none)) :=
  C10_closed_containment "chr1" 100 400 (some .Forward) none none none []
    [(100, 200), (300, 400)] 200 300 false
    (by decide) (by decide) none


end Gte

namespace Gte

theorem PRes.okBind {α β : Type} (a : α) (f : α → PRes β) :
    (PRes.ok a : PRes α) >>= f = f a := rfl

theorem chkSub_of_le {a b : Nat} (h : b ≤ a) : chkSub a b = .ok (a - b) := by
  simp [chkSub, h]

theorem chkAdd_of_lt {a b : Nat} (h : a + b < U64SIZE) : chkAdd a b = .ok (a + b) := by
  simp [chkAdd, h]

theorem synStep_fwd_single {sn : String} {tid gid eid : Option String}
    {c0 c1 p q : Nat}
    (hpc : p ≤ c0) (hpq : p < q) (h2 : c1 + 3 ≤ q) (h3 : c0 + 3 ≤ c1)
    (hq2 : c1 + 3 < U64SIZE) :
    synStep sn .Forward tid gid eid c0 c1 .UTR5 .UTR3 ⟨[], 3, 3⟩ (p, q) =
      .ok ⟨[{ seq_name := sn, start := p, stop := q, strand := .Forward,
              id := eid, gene_id := gid, transcript_id := tid, attributes := [],
              features :=
                (if p < c0 then [⟨p, c0, .UTR5⟩] else []) ++
                [⟨c0, c0 + 3, .StartCodon none⟩, ⟨c0, c1, .CDS none⟩,
                 ⟨c1, c1 + 3, .StopCodon none⟩] ++
                (if c1 + 3 < q then [⟨c1 + 3, q, .UTR3⟩] else []) }],
            0, 0⟩ := by
  unfold synStep
  rcases Nat.lt_or_ge p c0 with hlt | hge
  · rw [if_neg (by omega), if_pos (by dsimp only; omega)]
    unfold synStepA
    dsimp only
    rw [PRes.pureBind]
    have e1 : min q c0 = c0 := by omega
    rw [e1]
    rw [if_neg (by omega), if_neg (by omega), if_neg (by omega), if_neg (by omega),
      if_pos (by omega)]
    rw [chkSub_of_le (by omega), PRes.okBind]
    rw [if_neg (by omega)]
    rw [chkAdd_of_lt (by omega), PRes.okBind]
    rw [chkSub_of_le (by omega), PRes.okBind]
    rw [chkAdd_of_lt (by omega), PRes.okBind]
    dsimp only [ExonFeature.span]
    rw [chkSub_of_le (by omega), PRes.okBind]
    dsimp only [pushExn]
    have e2 : min q (c1 + 3) = c1 + 3 := by omega
    rw [e2, if_pos hlt]
    simp
  · have hpeq : p = c0 := by omega
    subst hpeq
    rw [if_neg (by omega), if_neg (by dsimp only; omega), if_pos (by dsimp only)]
    unfold synStepB
    dsimp only
    rw [if_neg (by omega), if_neg (by omega), if_pos (by omega)]
    rw [chkSub_of_le (by omega), PRes.okBind]
    rw [if_neg (by omega)]
    rw [chkAdd_of_lt (by omega), PRes.okBind]
    rw [chkSub_of_le (by omega), PRes.okBind]
    rw [chkAdd_of_lt (by omega), PRes.okBind]
    dsimp only [ExonFeature.span]
    rw [chkSub_of_le (by omega), PRes.okBind]
    dsimp only [pushExn]
    have e2 : min q (c1 + 3) = c1 + 3 := by omega
    rw [e2]
    simp

theorem backtrack_and_push_zero (efk : ExonFeatureKind) (exs : List Exon) :
    backtrack_and_push efk exs 0 = .ok (exs, 0) := by
  cases exs <;> rfl

theorem synStep_rev_single {sn : String} {tid gid eid : Option String}
    {c0 c1 p q : Nat}
    (hpc : p + 3 ≤ c0) (h3 : c0 + 3 ≤ c1) (hcq : c1 ≤ q) :
    synStep sn .Reverse tid gid eid c0 c1 .UTR3 .UTR5 ⟨[], 3, 3⟩ (p, q) =
      .ok ⟨[{ seq_name := sn, start := p, stop := q, strand := .Reverse,
              id := eid, gene_id := gid, transcript_id := tid, attributes := [],
              features :=
                (if p < c0 - 3 then [⟨p, c0 - 3, .UTR3⟩] else []) ++
                [⟨c0 - 3, c0, .StopCodon none⟩, ⟨c0, c1, .CDS none⟩,
                 ⟨c1 - 3, c1, .StartCodon none⟩] ++
                (if c1 < q then [⟨c1, q, .UTR5⟩] else []) }],
            0, 0⟩ := by
  unfold synStep
  rw [if_neg (by omega), if_pos (by dsimp only; omega)]
  unfold synStepA
  dsimp only
  rw [chkSub_of_le (by omega), PRes.okBind, PRes.pureBind]
  have e0 : min q (c0 - 3) = c0 - 3 := by omega
  rw [e0]
  rcases Nat.lt_or_ge c1 q with hlt | hge
  · rw [if_neg (by omega), if_neg (by omega), if_neg (by omega), if_neg (by omega),
      if_pos (by omega)]
    rw [chkSub_of_le (by omega), PRes.okBind]
    rw [if_neg (by omega)]
    rw [chkSub_of_le (by omega), PRes.okBind]
    have e1 : max p (c0 - 3) = c0 - 3 := by omega
    rw [e1]
    dsimp only [ExonFeature.span]
    have e2 : c0 - (c0 - 3) = 3 := by omega
    rw [e2]
    rw [chkSub_of_le (by omega), PRes.okBind]
    rw [show (3 : Nat) - 3 = 0 from rfl, backtrack_and_push_zero, PRes.okBind]
    rw [PRes.okBind]
    have e4 : c1 - (c1 - 3) = 3 := by omega
    rw [e4]
    rw [chkSub_of_le (by omega), PRes.okBind]
    dsimp only [pushExn]
    rw [if_pos hlt]
    simp
  · have heq : q = c1 := by omega
    subst heq
    rw [if_neg (by omega), if_neg (by omega), if_neg (by omega), if_pos (by omega)]
    rw [chkSub_of_le (by omega), PRes.okBind]
    rw [if_neg (by omega)]
    rw [chkSub_of_le (by omega), PRes.okBind]
    have e1 : max (c0 - 3) p = c0 - 3 := by omega
    rw [e1]
    dsimp only [ExonFeature.span]
    have e2 : c0 - (c0 - 3) = 3 := by omega
    rw [e2]
    rw [chkSub_of_le (by omega), PRes.okBind]
    rw [show (3 : Nat) - 3 = 0 from rfl, backtrack_and_push_zero, PRes.okBind]
    rw [PRes.okBind]
    have e3 : max p (q - 3) = q - 3 := by omega
    rw [e3]
    have e4 : q - (q - 3) = 3 := by omega
    rw [e4]
    rw [chkSub_of_le (by omega), PRes.okBind]
    rw [show (3 : Nat) - 3 = 0 from rfl, backtrack_and_push_zero, PRes.okBind]
    dsimp only [pushExn]
    simp


theorem synFold_single (sn : String) (σ : Strand) (tid gid eid : Option String)
    (c0 c1 : Nat) (u1 u2 : ExonFeatureKind) (st : SynSt) (c : Coord) :
    synFold sn σ tid gid eid c0 c1 u1 u2 st [c] =
      synStep sn σ tid gid eid c0 c1 u1 u2 st c := by
  cases h : synStep sn σ tid gid eid c0 c1 u1 u2 st c <;>
    simp [synFold, h]

theorem synStep_fwd_small {sn : String} {tid gid eid : Option String} {c0 c1 p q : Nat}
    (hpc : p ≤ c0) (hc : c0 < c1) (hcq : c1 ≤ q) (hs : c1 - c0 < 3) :
    synStep sn .Forward tid gid eid c0 c1 .UTR5 .UTR3 ⟨[], 3, 3⟩ (p, q) =
      .err (.CodingTooSmall tid) := by
  unfold synStep
  rcases Nat.lt_or_ge p c0 with hlt | hge
  · rw [if_neg (by omega), if_pos (by dsimp only; omega)]
    unfold synStepA
    dsimp only
    rw [PRes.pureBind]
    rcases Nat.lt_or_ge c1 q with hq | hq
    · rw [if_neg (by omega), if_neg (by omega), if_neg (by omega), if_neg (by omega),
        if_pos (by omega)]
      rw [chkSub_of_le (by omega), PRes.okBind, if_pos (by omega)]
    · have hqe : q = c1 := by omega
      subst hqe
      rw [if_neg (by omega), if_neg (by omega), if_neg (by omega), if_pos (by omega)]
      rw [chkSub_of_le (by omega), PRes.okBind, if_pos (by omega)]
  · have hpe : p = c0 := by omega
    subst hpe
    rw [if_neg (by omega), if_neg (by dsimp only; omega), if_pos (by dsimp only)]
    unfold synStepB
    dsimp only
    rcases Nat.lt_or_ge c1 q with hq | hq
    · rw [if_neg (by omega), if_neg (by omega), if_pos (by omega)]
      rw [chkSub_of_le (by omega), PRes.okBind, if_pos (by omega)]
    · have hqe : q = c1 := by omega
      subst hqe
      rw [if_neg (by omega), if_pos (by omega)]
      rw [chkSub_of_le (by omega), PRes.okBind, if_pos (by omega)]

theorem synStep_rev_small {sn : String} {tid gid eid : Option String} {c0 c1 p q : Nat}
    (hpc : p + 3 ≤ c0) (hc : c0 < c1) (hcq : c1 ≤ q) (hs : c1 - c0 < 3) :
    synStep sn .Reverse tid gid eid c0 c1 .UTR3 .UTR5 ⟨[], 3, 3⟩ (p, q) =
      .err (.CodingTooSmall tid) := by
  unfold synStep
  rw [if_neg (by omega), if_pos (by dsimp only; omega)]
  unfold synStepA
  dsimp only
  rw [chkSub_of_le (by omega), PRes.okBind, PRes.pureBind]
  rcases Nat.lt_or_ge c1 q with hq | hq
  · rw [if_neg (by omega), if_neg (by omega), if_neg (by omega), if_neg (by omega),
      if_pos (by omega)]
    rw [chkSub_of_le (by omega), PRes.okBind, if_pos (by omega)]
  · have hqe : q = c1 := by omega
    subst hqe
    rw [if_neg (by omega), if_neg (by omega), if_neg (by omega), if_pos (by omega)]
    rw [chkSub_of_le (by omega), PRes.okBind, if_pos (by omega)]

theorem stopRoom_fwd_ok_true {c0 c1 er0 er1 : Nat}
    (h : stopRoom .Forward c0 c1 er0 er1 = .ok true) :
    c1 + 3 < U64SIZE ∧ c1 + 3 ≤ er1 := by
  unfold stopRoom at h
  dsimp only at h
  rw [PRes.bind_eq_bind] at h
  rcases hA : chkAdd c1 3 with v | x | -
  · rw [hA, PRes.bind_ok] at h
    rw [chkAdd_eq_ok] at hA
    simp only [PRes.pure_eq_ok, PRes.ok.injEq] at h
    have hv := of_decide_eq_true h
    omega
  · exact absurd hA (chkAdd_ne_err x)
  · rw [hA, PRes.bind_crash] at h; cases h

theorem stopRoom_rev_ok_true {c0 c1 er0 er1 : Nat}
    (h : stopRoom .Reverse c0 c1 er0 er1 = .ok true) :
    3 ≤ c0 ∧ er0 + 3 ≤ c0 := by
  unfold stopRoom at h
  dsimp only at h
  rw [PRes.bind_eq_bind] at h
  rcases hS : chkSub c0 3 with v | x | -
  · rw [hS, PRes.bind_ok] at h
    rw [chkSub_eq_ok] at hS
    simp only [PRes.pure_eq_ok, PRes.ok.injEq] at h
    have hv := of_decide_eq_true h
    omega
  · exact absurd hS (chkSub_ne_err x)
  · rw [hS, PRes.bind_crash] at h; cases h

theorem adjusted_some {incl : Bool} {c : Coord} {σ : Strand} {m : List Coord}
    {adj : Option Coord} (h : adjustedCoding incl (some c) σ m = .ok adj) :
    ∃ v, adj = some v := by
  unfold adjustedCoding at h
  cases incl with
  | false =>
      simp only [Bool.false_eq_true, if_false] at h
      simp only [PRes.pure_eq_ok, PRes.ok.injEq] at h
      exact ⟨c, h.symm⟩
  | true =>
      simp only [if_true] at h
      unfold adjust_coding_coord at h
      cases σ with
      | Forward =>
          dsimp only at h
          rw [PRes.bind_eq_bind, PRes.bind_eq_ok_iff] at h
          obtain ⟨v, -, h⟩ := h
          simp only [PRes.pure_eq_ok, PRes.ok.injEq] at h
          exact ⟨_, h.symm⟩
      | Reverse =>
          dsimp only at h
          rw [PRes.bind_eq_bind, PRes.bind_eq_ok_iff] at h
          obtain ⟨v, -, h⟩ := h
          simp only [PRes.pure_eq_ok, PRes.ok.injEq] at h
          exact ⟨_, h.symm⟩
      | Unknown =>
          dsimp only at h
          simp only [PRes.pure_eq_ok, PRes.ok.injEq] at h
          exact ⟨_, h.symm⟩

theorem build_ok_facts {sn : String} {s e : Nat} {σv : Option Strand} {σc : Option Char}
    {tid gid : Option String} {ats : List (String × String)} {ecs : List Coord}
    {cc : Option Coord} {incl : Bool} {t : Transcript}
    (hb : TBuilder.build ⟨sn, s, e, σv, σc, tid, gid, ats, none, some ecs, cc, incl⟩ =
      .ok t) :
    ∃ σ exns, s ≤ e ∧ resolve_strand_input σv σc = .ok σ ∧
      infer_exons sn s e σ tid gid none ecs cc incl = .ok exns ∧
      t = ⟨sn, s, e, σ, tid, gid, ats, exns⟩ := by
  unfold TBuilder.build at hb
  by_cases hse : s ≤ e
  case neg =>
    simp only [coord_to_interval, if_neg hse, PRes.bind_eq_bind, PRes.bind_err] at hb
    cases hb
  simp only [coord_to_interval, if_pos hse, PRes.bind_eq_bind, PRes.bind_ok] at hb
  rcases hσ : resolve_strand_input σv σc with σ | x | -
  · rw [hσ, PRes.bind_ok] at hb
    dsimp only [resolve_exons_input] at hb
    rcases hinf : infer_exons sn s e σ tid gid none ecs cc incl with exns | x2 | -
    · rw [hinf, PRes.bind_ok] at hb
      simp only [PRes.pure_eq_ok, PRes.ok.injEq] at hb
      refine ⟨σ, exns, hse, rfl, hinf, ?_⟩
      exact hb.symm
    · rw [hinf, PRes.bind_err] at hb; cases hb
    · rw [hinf, PRes.bind_crash] at hb; cases hb
  · rw [hσ, PRes.bind_err] at hb; cases hb
  · rw [hσ, PRes.bind_crash] at hb; cases hb

theorem infer_exons_ok_facts {sn : String} {ts te : Nat} {σ : Strand}
    {tid gid eid : Option String} {ecs : List Coord} {cc0 : Coord}
    {incl : Bool} {exns : List Exon}
    (h : infer_exons sn ts te σ tid gid eid ecs (some cc0) incl = .ok exns) :
    ∃ c0 c1,
      adjustedCoding incl (some cc0) σ (sortCoords ecs) = .ok (some (c0, c1)) ∧
      ecs ≠ [] ∧ (∀ p ∈ ecs, p.1 < p.2) ∧
      ((sortCoords ecs).headD (0, 0)).1 = ts ∧
      ((sortCoords ecs).getLastD (0, 0)).2 = te ∧
      c0 < c1 ∧ ts ≤ c0 ∧ c1 ≤ te ∧
      stopRoom σ c0 c1 ts te = .ok true ∧
      infer_exon_features (sortCoords ecs) (c0, c1) sn σ tid gid eid = .ok exns := by
  unfold infer_exons at h
  by_cases h1 : ecs = []
  · rw [if_pos h1] at h; cases h
  rw [if_neg h1] at h
  by_cases h2 : ∀ p ∈ ecs, p.1 < p.2
  case neg =>
    rw [if_pos (by simpa [all_lt_iff] using h2)] at h; cases h
  rw [if_neg (by simpa [all_lt_iff] using h2)] at h
  dsimp only at h
  rw [PRes.bind_eq_bind] at h
  rcases hadj : adjustedCoding incl (some cc0) σ (sortCoords ecs) with adj | x | -
  rotate_left
  · rw [hadj, PRes.bind_err] at h; cases h
  · rw [hadj, PRes.bind_crash] at h; cases h
  rw [hadj, PRes.bind_ok] at h
  obtain ⟨⟨c0, c1⟩, rfl⟩ := adjusted_some hadj
  dsimp only at h
  by_cases h3 : ((sortCoords ecs).headD (0, 0)).1 ≠ ts ∨ ((sortCoords ecs).getLastD (0, 0)).2 ≠ te
  · rw [if_pos h3] at h; cases h
  rw [if_neg h3] at h
  push_neg at h3
  obtain ⟨h3a, h3b⟩ := h3
  by_cases h4 : c1 ≤ c0
  · rw [if_pos h4] at h; cases h
  rw [if_neg h4] at h
  by_cases h5 : c0 < ((sortCoords ecs).headD (0, 0)).1 ∨ ((sortCoords ecs).getLastD (0, 0)).2 < c1
  · rw [if_pos h5] at h; cases h
  rw [if_neg h5] at h
  push_neg at h5
  obtain ⟨h5a, h5b⟩ := h5
  by_cases h6 : ¬ (cineFold (sortCoords ecs) c0 c1).1 ∨ ¬ (cineFold (sortCoords ecs) c0 c1).2
  · rw [if_pos h6] at h; cases h
  rw [if_neg h6] at h
  rw [PRes.bind_eq_bind] at h
  rcases hsr : stopRoom σ c0 c1 ((sortCoords ecs).headD (0, 0)).1
      ((sortCoords ecs).getLastD (0, 0)).2 with b | x | -
  · rw [hsr, PRes.bind_ok] at h
    cases b
    · rw [if_pos (by simp)] at h; cases h
    · rw [if_neg (by simp)] at h
      rw [h3a, h3b] at hsr
      exact ⟨c0, c1, rfl, h1, h2, h3a, h3b, by omega, by omega, by omega, hsr, h⟩
  · rw [hsr, PRes.bind_err] at h; cases h
  · rw [hsr, PRes.bind_crash] at h; cases h

theorem ief_fwd_single {sn : String} {tid gid eid : Option String} {p q c0 c1 : Nat}
    (hpc : p ≤ c0) (hpq : p < q) (h2 : c1 + 3 ≤ q) (h3 : c0 + 3 ≤ c1)
    (hq2 : c1 + 3 < U64SIZE) :
    infer_exon_features [(p, q)] (c0, c1) sn .Forward tid gid eid =
      .ok [{ seq_name := sn, start := p, stop := q, strand := .Forward,
             id := eid, gene_id := gid, transcript_id := tid, attributes := [],
             features :=
               (if p < c0 then [⟨p, c0, .UTR5⟩] else []) ++
               [⟨c0, c0 + 3, .StartCodon (some 0)⟩, ⟨c0, c1, .CDS (some 0)⟩,
                ⟨c1, c1 + 3, .StopCodon (some 0)⟩] ++
               (if c1 + 3 < q then [⟨c1 + 3, q, .UTR3⟩] else []) }] := by
  unfold infer_exon_features
  dsimp only
  rw [PRes.bind_eq_bind, synFold_single, synStep_fwd_single hpc hpq h2 h3 hq2,
    PRes.bind_ok]
  dsimp only
  rcases Nat.lt_or_ge p c0 with h7 | h7 <;> rcases Nat.lt_or_ge (c1 + 3) q with h8 | h8
  · rw [if_pos h7, if_pos h8]; rfl
  · rw [if_pos h7, if_neg (by omega)]; rfl
  · rw [if_neg (by omega), if_pos h8]; rfl
  · rw [if_neg (by omega), if_neg (by omega)]; rfl

theorem ief_rev_single {sn : String} {tid gid eid : Option String} {p q c0 c1 : Nat}
    (hpc : p + 3 ≤ c0) (h3 : c0 + 3 ≤ c1) (hcq : c1 ≤ q) :
    infer_exon_features [(p, q)] (c0, c1) sn .Reverse tid gid eid =
      .ok [{ seq_name := sn, start := p, stop := q, strand := .Reverse,
             id := eid, gene_id := gid, transcript_id := tid, attributes := [],
             features :=
               (if p < c0 - 3 then [⟨p, c0 - 3, .UTR3⟩] else []) ++
               [⟨c0 - 3, c0, .StopCodon (some 0)⟩, ⟨c0, c1, .CDS (some 0)⟩,
                ⟨c1 - 3, c1, .StartCodon (some 0)⟩] ++
               (if c1 < q then [⟨c1, q, .UTR5⟩] else []) }] := by
  unfold infer_exon_features
  dsimp only
  rw [PRes.bind_eq_bind, synFold_single, synStep_rev_single hpc h3 hcq,
    PRes.bind_ok]
  dsimp only
  rcases Nat.lt_or_ge p (c0 - 3) with h7 | h7 <;> rcases Nat.lt_or_ge c1 q with h8 | h8
  · rw [if_pos h7, if_pos h8]; rfl
  · rw [if_pos h7, if_neg (by omega)]; rfl
  · rw [if_neg (by omega), if_pos h8]; rfl
  · rw [if_neg (by omega), if_neg (by omega)]; rfl

/-- Claim C1, amended: for a transcript built by `TBuilder` from a *single*
exon coordinate and a coding coordinate, on strand `Forward` or `Reverse`,
the total span of the `StartCodon` sub-features is exactly 3 and the total
span of the `StopCodon` sub-features is exactly 3.  (With several exon
coordinates the walk can starve a split codon, see `C1_counterexample`.) -/
theorem C1_amended (sn : String) (s e p q a b2 : Nat) (σv : Option Strand)
    (σc : Option Char) (tid gid : Option String) (ats : List (String × String))
    (incl : Bool) (t : Transcript)
    (hσ : t.strand = .Forward ∨ t.strand = .Reverse)
    (hb : TBuilder.build ⟨sn, s, e, σv, σc, tid, gid, ats, none, some [(p, q)],
        some (a, b2), incl⟩ = .ok t) :
    t.startCodonSpan = 3 ∧ t.stopCodonSpan = 3 := by
  obtain ⟨σ, exns, hse, hσv, hinf, rfl⟩ := build_ok_facts hb
  obtain ⟨c0, c1, hadj, -, -, hh, hl, hc, hc0, hc1, hroom, hief⟩ :=
    infer_exons_ok_facts hinf
  have hps : p = s := by simpa [sortCoords, insertCoord] using hh
  have hqe : q = e := by simpa [sortCoords, insertCoord] using hl
  subst hps
  subst hqe
  dsimp only at hσ
  rw [show sortCoords [(p, q)] = [(p, q)] from rfl] at hief
  rcases hσ with hF | hR
  · subst hF
    obtain ⟨hov, hle⟩ := stopRoom_fwd_ok_true hroom
    by_cases hsm : c1 - c0 < 3
    · exfalso
      unfold infer_exon_features at hief
      dsimp only at hief
      rw [PRes.bind_eq_bind, synFold_single, synStep_fwd_small hc0 hc hc1 hsm,
        PRes.bind_err] at hief
      cases hief
    · have h3 : c0 + 3 ≤ c1 := by omega
      rw [ief_fwd_single hc0 (by omega) hle h3 hov] at hief
      simp only [PRes.ok.injEq] at hief
      subst hief
      rcases Nat.lt_or_ge p c0 with h7 | h7 <;>
        rcases Nat.lt_or_ge (c1 + 3) q with h8 | h8
      · rw [if_pos h7, if_pos h8]
        constructor <;> (simp [Transcript.startCodonSpan, Transcript.stopCodonSpan,
          startSpans, stopSpans, ExonFeature.span] <;> omega)
      · rw [if_pos h7, if_neg (by omega)]
        constructor <;> (simp [Transcript.startCodonSpan, Transcript.stopCodonSpan,
          startSpans, stopSpans, ExonFeature.span] <;> omega)
      · rw [if_neg (by omega), if_pos h8]
        constructor <;> (simp [Transcript.startCodonSpan, Transcript.stopCodonSpan,
          startSpans, stopSpans, ExonFeature.span] <;> omega)
      · rw [if_neg (by omega), if_neg (by omega)]
        constructor <;> (simp [Transcript.startCodonSpan, Transcript.stopCodonSpan,
          startSpans, stopSpans, ExonFeature.span] <;> omega)
  · subst hR
    obtain ⟨h3c, hrc⟩ := stopRoom_rev_ok_true hroom
    by_cases hsm : c1 - c0 < 3
    · exfalso
      unfold infer_exon_features at hief
      dsimp only at hief
      rw [PRes.bind_eq_bind, synFold_single, synStep_rev_small hrc hc hc1 hsm,
        PRes.bind_err] at hief
      cases hief
    · have h3 : c0 + 3 ≤ c1 := by omega
      rw [ief_rev_single hrc h3 hc1] at hief
      simp only [PRes.ok.injEq] at hief
      subst hief
      rcases Nat.lt_or_ge p (c0 - 3) with h7 | h7 <;>
        rcases Nat.lt_or_ge c1 q with h8 | h8
      · rw [if_pos h7, if_pos h8]
        constructor <;> (simp [Transcript.startCodonSpan, Transcript.stopCodonSpan,
          startSpans, stopSpans, ExonFeature.span] <;> omega)
      · rw [if_pos h7, if_neg (by omega)]
        constructor <;> (simp [Transcript.startCodonSpan, Transcript.stopCodonSpan,
          startSpans, stopSpans, ExonFeature.span] <;> omega)
      · rw [if_neg (by omega), if_pos h8]
        constructor <;> (simp [Transcript.startCodonSpan, Transcript.stopCodonSpan,
          startSpans, stopSpans, ExonFeature.span] <;> omega)
      · rw [if_neg (by omega), if_neg (by omega)]
        constructor <;> (simp [Transcript.startCodonSpan, Transcript.stopCodonSpan,
          startSpans, stopSpans, ExonFeature.span] <;> omega)

/-- Witness for the amended C1 at a concrete single-exon input. -/
theorem C1_witness :
    Transcript.startCodonSpan
        ⟨"chr1", 0, 20, .Forward, none, none, [],
         [⟨"chr1", 0, 20, .Forward, none, none, none, [],
           [⟨0, 2, .UTR5⟩, ⟨2, 5, .StartCodon (some 0)⟩, ⟨2, 15, .CDS (some 0)⟩,
            ⟨15, 18, .StopCodon (some 0)⟩, ⟨18, 20, .UTR3⟩]⟩]⟩ = 3 ∧
    Transcript.stopCodonSpan
        ⟨"chr1", 0, 20, .Forward, none, none, [],
         [⟨"chr1", 0, 20, .Forward, none, none, none, [],
           [⟨0, 2, .UTR5⟩, ⟨2, 5, .StartCodon (some 0)⟩, ⟨2, 15, .CDS (some 0)⟩,
            ⟨15, 18, .StopCodon (some 0)⟩, ⟨18, 20, .UTR3⟩]⟩]⟩ = 3 :=
  C1_amended "chr1" 0 20 0 20 2 15 (some .Forward) none none none [] false _
    (Or.inl rfl) (by decide)

theorem adjust_single_fwd {a b2 p q c0 c1 : Nat}
    (h : adjustedCoding true (some (a, b2)) .Forward [(p, q)] = .ok (some (c0, c1)))
    (hc : c0 < c1) (hpc : p ≤ c0) (hcq : c1 ≤ q) :
    c0 = a ∧ c1 + 3 = b2 := by
  unfold adjustedCoding at h
  rw [if_pos rfl] at h
  unfold adjust_coding_coord at h
  dsimp only at h
  rw [show ([(p, q)] : List Coord).reverse = [(p, q)] from rfl] at h
  rw [PRes.bind_eq_bind, PRes.bind_eq_ok_iff] at h
  obtain ⟨v, hv, h⟩ := h
  simp only [PRes.pure_eq_ok, PRes.ok.injEq, Option.some.injEq, Prod.mk.injEq] at h
  obtain ⟨h1, h2⟩ := h
  subst h1
  subst h2
  unfold adjust_fwd at hv
  by_cases hin : p ≤ b2 ∧ b2 ≤ q
  · rw [if_pos hin] at hv
    rw [PRes.bind_eq_bind, PRes.bind_eq_ok_iff] at hv
    obtain ⟨d, hd, hv⟩ := hv
    rw [chkSub_eq_ok] at hd
    obtain ⟨h3b, rfl⟩ := hd
    dsimp only at hv
    split at hv
    · simp only [PRes.ok.injEq] at hv
      exact ⟨rfl, by omega⟩
    · simp only [adjust_fwd, PRes.ok.injEq] at hv
      exact ⟨rfl, by omega⟩
  · rw [if_neg hin] at hv
    simp only [adjust_fwd, PRes.ok.injEq] at hv
    exact absurd ⟨by omega, by omega⟩ hin

theorem adjust_single_rev {a b2 p q c0 c1 : Nat}
    (h : adjustedCoding true (some (a, b2)) .Reverse [(p, q)] = .ok (some (c0, c1)))
    (hc : c0 < c1) (hpc : p ≤ c0) (hcq : c1 ≤ q) :
    c0 = a + 3 ∧ c1 = b2 := by
  unfold adjustedCoding at h
  rw [if_pos rfl] at h
  unfold adjust_coding_coord at h
  dsimp only at h
  rw [PRes.bind_eq_bind, PRes.bind_eq_ok_iff] at h
  obtain ⟨v, hv, h⟩ := h
  simp only [PRes.pure_eq_ok, PRes.ok.injEq, Option.some.injEq, Prod.mk.injEq] at h
  obtain ⟨h1, h2⟩ := h
  subst h1
  subst h2
  unfold adjust_rev at hv
  by_cases hin : p ≤ a ∧ a ≤ q
  · rw [if_pos hin] at hv
    rw [PRes.bind_eq_bind] at hv
    rcases hA : chkAdd a 3 with w | x | -
    · rw [hA, PRes.bind_ok] at hv
      rw [chkAdd_eq_ok] at hA
      dsimp only at hv
      split at hv
      · simp only [PRes.ok.injEq] at hv
        exact ⟨by omega, rfl⟩
      · simp only [adjust_rev, PRes.ok.injEq] at hv
        exact ⟨by omega, rfl⟩
    · exact absurd hA (chkAdd_ne_err x)
    · rw [hA, PRes.bind_crash] at hv; cases hv
  · rw [if_neg hin] at hv
    simp only [adjust_rev, PRes.ok.injEq] at hv
    exact absurd ⟨by omega, by omega⟩ hin

/-- Claim C2, amended: for a transcript built by `TBuilder` from a *single*
exon coordinate and a coding coordinate `(a, b2)` with
`coding_incl_stop = true`, on strand `Forward` or `Reverse`, querying
`coding_coord(incl_stop = true)` returns exactly `some (a, b2)`.  (With
several exon coordinates the round-trip can differ, see
`C2_counterexample`.) -/
theorem C2_amended (sn : String) (s e p q a b2 : Nat) (σv : Option Strand)
    (σc : Option Char) (tid gid : Option String) (ats : List (String × String))
    (t : Transcript)
    (hσ : t.strand = .Forward ∨ t.strand = .Reverse)
    (hb : TBuilder.build ⟨sn, s, e, σv, σc, tid, gid, ats, none, some [(p, q)],
        some (a, b2), true⟩ = .ok t) :
    t.coding_coord true = .ok (some (a, b2)) := by
  obtain ⟨σ, exns, hse, hσv, hinf, rfl⟩ := build_ok_facts hb
  obtain ⟨c0, c1, hadj, -, -, hh, hl, hc, hc0, hc1, hroom, hief⟩ :=
    infer_exons_ok_facts hinf
  have hps : p = s := by simpa [sortCoords, insertCoord] using hh
  have hqe : q = e := by simpa [sortCoords, insertCoord] using hl
  subst hps
  subst hqe
  dsimp only at hσ
  rw [show sortCoords [(p, q)] = [(p, q)] from rfl] at hief hadj
  rcases hσ with hF | hR
  · subst hF
    obtain ⟨hov, hle⟩ := stopRoom_fwd_ok_true hroom
    obtain ⟨hca, hcb⟩ := adjust_single_fwd hadj hc hc0 hc1
    by_cases hsm : c1 - c0 < 3
    · exfalso
      unfold infer_exon_features at hief
      dsimp only at hief
      rw [PRes.bind_eq_bind, synFold_single, synStep_fwd_small hc0 hc hc1 hsm,
        PRes.bind_err] at hief
      cases hief
    · have h3 : c0 + 3 ≤ c1 := by omega
      rw [ief_fwd_single hc0 (by omega) hle h3 hov] at hief
      simp only [PRes.ok.injEq] at hief
      subst hief
      subst hca
      rw [← hcb]
      rcases Nat.lt_or_ge p c0 with h7 | h7 <;>
        rcases Nat.lt_or_ge (c1 + 3) q with h8 | h8
      · rw [if_pos h7, if_pos h8]; rfl
      · rw [if_pos h7, if_neg (by omega)]; rfl
      · rw [if_neg (by omega), if_pos h8]; rfl
      · rw [if_neg (by omega), if_neg (by omega)]; rfl
  · subst hR
    obtain ⟨h3c, hrc⟩ := stopRoom_rev_ok_true hroom
    obtain ⟨hca, hcb⟩ := adjust_single_rev hadj hc hc0 hc1
    by_cases hsm : c1 - c0 < 3
    · exfalso
      unfold infer_exon_features at hief
      dsimp only at hief
      rw [PRes.bind_eq_bind, synFold_single, synStep_rev_small hrc hc hc1 hsm,
        PRes.bind_err] at hief
      cases hief
    · have h3 : c0 + 3 ≤ c1 := by omega
      rw [ief_rev_single hrc h3 hc1] at hief
      simp only [PRes.ok.injEq] at hief
      subst hief
      subst hcb
      have ha : a = c0 - 3 := by omega
      rw [ha]
      rcases Nat.lt_or_ge p (c0 - 3) with h7 | h7 <;>
        rcases Nat.lt_or_ge c1 q with h8 | h8
      · rw [if_pos h7, if_pos h8]; rfl
      · rw [if_pos h7, if_neg (by omega)]; rfl
      · rw [if_neg (by omega), if_pos h8]; rfl
      · rw [if_neg (by omega), if_neg (by omega)]; rfl

/-- Witness for the amended C2 at a concrete single-exon input. -/
theorem C2_witness :
    Transcript.coding_coord
      ⟨"chr1", 0, 20, .Forward, none, none, [],
       [⟨"chr1", 0, 20, .Forward, none, none, none, [],
         [⟨0, 2, .UTR5⟩, ⟨2, 5, .StartCodon (some 0)⟩, ⟨2, 12, .CDS (some 0)⟩,
          ⟨12, 15, .StopCodon (some 0)⟩, ⟨15, 20, .UTR3⟩]⟩]⟩ true =
      .ok (some (2, 15)) :=
  C2_amended "chr1" 0 20 0 20 2 15 (some .Forward) none none none [] _
    (Or.inl rfl) (by decide)

set_option maxHeartbeats 1000000 in
/-- On the `Forward` strand, every successful synthesis step pushes exactly
one exon whose sub-features are in ascending lexicographic interval
order. -/
theorem synStep_fwd_asc {sn : String} {tid gid eid : Option String} {c0 c1 : Nat}
    {u1 u2 : ExonFeatureKind} {st st' : SynSt} {c : Coord}
    (h : synStep sn .Forward tid gid eid c0 c1 u1 u2 st c = .ok st') :
    ∃ x, st'.acc = x :: st.acc ∧ featsAsc x.features = true := by
  obtain ⟨s, e⟩ := c
  unfold synStep at h
  dsimp only at h
  split at h
  · cases h
  rename_i hse
  split at h
  · rename_i hsc0
    unfold synStepA at h
    dsimp only at h
    rw [PRes.pureBind] at h
    split at h
    · rename_i h1
      dsimp only [pushExn] at h
      simp only [PRes.ok.injEq] at h
      subst h
      refine ⟨_, rfl, ?_⟩
      dsimp only
      split <;> rfl
    rename_i h1
    split at h
    · rename_i h2
      dsimp only [pushExn] at h
      simp only [PRes.ok.injEq] at h
      subst h
      refine ⟨_, rfl, ?_⟩
      dsimp only
      split <;> rfl
    rename_i h2
    split at h
    · rename_i h3
      rw [PRes.bind_eq_bind, PRes.bind_eq_ok_iff] at h
      obtain ⟨av, hav, h⟩ := h
      rw [chkAdd_eq_ok] at hav
      obtain ⟨-, rfl⟩ := hav
      rw [PRes.bind_eq_bind, PRes.bind_eq_ok_iff] at h
      obtain ⟨r1, -, h⟩ := h
      dsimp only [pushExn] at h
      simp only [PRes.ok.injEq] at h
      subst h
      refine ⟨_, rfl, ?_⟩
      dsimp only
      have hm : min e c0 = c0 := by omega
      rw [hm, if_pos hsc0]
      simp [featsAsc]
      try omega
    rename_i h3
    split at h
    · rename_i h4
      rw [PRes.bind_eq_bind, PRes.bind_eq_ok_iff] at h
      obtain ⟨w, hw, h⟩ := h
      rw [chkSub_eq_ok] at hw
      obtain ⟨hw1, rfl⟩ := hw
      split at h
      · cases h
      rename_i hw3
      rw [PRes.bind_eq_bind, PRes.bind_eq_ok_iff] at h
      obtain ⟨av, hav, h⟩ := h
      rw [chkAdd_eq_ok] at hav
      obtain ⟨-, rfl⟩ := hav
      rw [PRes.bind_eq_bind, PRes.bind_eq_ok_iff] at h
      obtain ⟨r1, -, h⟩ := h
      dsimp only [pushExn] at h
      simp only [PRes.ok.injEq] at h
      subst h
      refine ⟨_, rfl, ?_⟩
      dsimp only
      have hm : min e c0 = c0 := by omega
      rw [hm, if_pos hsc0]
      simp [featsAsc]
      try omega
    rename_i h4
    split at h
    · rename_i h5
      rw [PRes.bind_eq_bind, PRes.bind_eq_ok_iff] at h
      obtain ⟨w, hw, h⟩ := h
      rw [chkSub_eq_ok] at hw
      obtain ⟨hw1, rfl⟩ := hw
      split at h
      · cases h
      rename_i hw3
      rw [PRes.bind_eq_bind, PRes.bind_eq_ok_iff] at h
      obtain ⟨av, hav, h⟩ := h
      rw [chkAdd_eq_ok] at hav
      obtain ⟨-, rfl⟩ := hav
      rw [PRes.bind_eq_bind, PRes.bind_eq_ok_iff] at h
      obtain ⟨r1, -, h⟩ := h
      rw [PRes.bind_eq_bind, PRes.bind_eq_ok_iff] at h
      obtain ⟨a2, ha2, h⟩ := h
      rw [chkAdd_eq_ok] at ha2
      obtain ⟨-, rfl⟩ := ha2
      rw [PRes.bind_eq_bind, PRes.bind_eq_ok_iff] at h
      obtain ⟨r2, -, h⟩ := h
      dsimp only [pushExn] at h
      simp only [PRes.ok.injEq] at h
      subst h
      refine ⟨_, rfl, ?_⟩
      dsimp only
      have hm : min e c0 = c0 := by omega
      rw [hm, if_pos hsc0]
      split
      · simp [featsAsc]
        try omega
      · simp [featsAsc]
        try omega
    cases h
  rename_i hsc0
  split at h
  · rename_i hseq
    unfold synStepB at h
    dsimp only at h
    split at h
    · rename_i h1
      rw [PRes.bind_eq_bind, PRes.bind_eq_ok_iff] at h
      obtain ⟨av, hav, h⟩ := h
      rw [chkAdd_eq_ok] at hav
      obtain ⟨-, rfl⟩ := hav
      rw [PRes.bind_eq_bind, PRes.bind_eq_ok_iff] at h
      obtain ⟨r1, -, h⟩ := h
      dsimp only [pushExn] at h
      simp only [PRes.ok.injEq] at h
      subst h
      refine ⟨_, rfl, ?_⟩
      dsimp only
      simp [featsAsc]
      try omega
    rename_i h1
    split at h
    · rename_i h2
      rw [PRes.bind_eq_bind, PRes.bind_eq_ok_iff] at h
      obtain ⟨w, hw, h⟩ := h
      rw [chkSub_eq_ok] at hw
      obtain ⟨hw1, rfl⟩ := hw
      split at h
      · cases h
      rename_i hw3
      rw [PRes.bind_eq_bind, PRes.bind_eq_ok_iff] at h
      obtain ⟨av, hav, h⟩ := h
      rw [chkAdd_eq_ok] at hav
      obtain ⟨-, rfl⟩ := hav
      dsimp only [pushExn] at h
      simp only [PRes.ok.injEq] at h
      subst h
      refine ⟨_, rfl, ?_⟩
      dsimp only
      simp [featsAsc]
      try omega
    rename_i h2
    split at h
    · rename_i h3
      rw [PRes.bind_eq_bind, PRes.bind_eq_ok_iff] at h
      obtain ⟨w, hw, h⟩ := h
      rw [chkSub_eq_ok] at hw
      obtain ⟨hw1, rfl⟩ := hw
      split at h
      · cases h
      rename_i hw3
      rw [PRes.bind_eq_bind, PRes.bind_eq_ok_iff] at h
      obtain ⟨av, hav, h⟩ := h
      rw [chkAdd_eq_ok] at hav
      obtain ⟨-, rfl⟩ := hav
      rw [PRes.bind_eq_bind, PRes.bind_eq_ok_iff] at h
      obtain ⟨r1, -, h⟩ := h
      rw [PRes.bind_eq_bind, PRes.bind_eq_ok_iff] at h
      obtain ⟨a2, ha2, h⟩ := h
      rw [chkAdd_eq_ok] at ha2
      obtain ⟨-, rfl⟩ := ha2
      rw [PRes.bind_eq_bind, PRes.bind_eq_ok_iff] at h
      obtain ⟨r2, -, h⟩ := h
      dsimp only [pushExn] at h
      simp only [PRes.ok.injEq] at h
      subst h
      refine ⟨_, rfl, ?_⟩
      dsimp only
      split
      · simp [featsAsc]
        try omega
      · simp [featsAsc]
        try omega
    cases h
  rename_i hseq
  split at h
  · rename_i hC
    unfold synStepC at h
    dsimp only at h
    split at h
    · rename_i h1
      split at h
      · rename_i hr
        rw [PRes.bind_eq_bind, PRes.bind_eq_ok_iff] at h
        obtain ⟨av, hav, h⟩ := h
        rw [chkAdd_eq_ok] at hav
        obtain ⟨-, rfl⟩ := hav
        rw [PRes.bind_eq_bind, PRes.bind_eq_ok_iff] at h
        obtain ⟨r1, -, h⟩ := h
        dsimp only [pushExn] at h
        simp only [PRes.ok.injEq] at h
        subst h
        refine ⟨_, rfl, ?_⟩
        dsimp only
        simp [featsAsc]
        try omega
      · dsimp only [pushExn] at h
        simp only [PRes.ok.injEq] at h
        subst h
        exact ⟨_, rfl, rfl⟩
    rename_i h1
    split at h
    · rename_i h2
      split at h
      · rename_i hr
        rw [PRes.bind_eq_bind, PRes.bind_eq_ok_iff] at h
        obtain ⟨av, hav, h⟩ := h
        rw [chkAdd_eq_ok] at hav
        obtain ⟨-, rfl⟩ := hav
        rw [PRes.bind_eq_bind, PRes.bind_eq_ok_iff] at h
        obtain ⟨r1, -, h⟩ := h
        dsimp only [pushExn] at h
        simp only [PRes.ok.injEq] at h
        subst h
        refine ⟨_, rfl, ?_⟩
        dsimp only
        simp [featsAsc]
        try omega
      · dsimp only [pushExn] at h
        simp only [PRes.ok.injEq] at h
        subst h
        exact ⟨_, rfl, rfl⟩
    rename_i h2
    split at h
    · rename_i h3
      split at h
      · rename_i hr
        rw [PRes.bind_eq_bind, PRes.bind_eq_ok_iff] at h
        obtain ⟨av, hav, h⟩ := h
        rw [chkAdd_eq_ok] at hav
        obtain ⟨-, rfl⟩ := hav
        rw [PRes.bind_eq_bind, PRes.bind_eq_ok_iff] at h
        obtain ⟨r1, -, h⟩ := h
        rw [PRes.pureBind] at h
        rw [PRes.bind_eq_bind, PRes.bind_eq_ok_iff] at h
        obtain ⟨a2, ha2, h⟩ := h
        rw [chkAdd_eq_ok] at ha2
        obtain ⟨-, rfl⟩ := ha2
        rw [PRes.bind_eq_bind, PRes.bind_eq_ok_iff] at h
        obtain ⟨r2, -, h⟩ := h
        dsimp only [pushExn] at h
        simp only [PRes.ok.injEq] at h
        subst h
        refine ⟨_, rfl, ?_⟩
        dsimp only
        split
        · simp [featsAsc]
          try omega
        · simp [featsAsc]
          try omega
      · rw [PRes.pureBind] at h
        rw [PRes.bind_eq_bind, PRes.bind_eq_ok_iff] at h
        obtain ⟨a2, ha2, h⟩ := h
        rw [chkAdd_eq_ok] at ha2
        obtain ⟨-, rfl⟩ := ha2
        rw [PRes.bind_eq_bind, PRes.bind_eq_ok_iff] at h
        obtain ⟨r2, -, h⟩ := h
        dsimp only [pushExn] at h
        simp only [PRes.ok.injEq] at h
        subst h
        refine ⟨_, rfl, ?_⟩
        dsimp only
        split
        · simp [featsAsc]
          try omega
        · simp [featsAsc]
          try omega
    cases h
  rename_i hC
  split at h
  · rename_i hD
    unfold synStepD at h
    dsimp only at h
    split at h
    · rename_i hr
      rw [PRes.bind_eq_bind, PRes.bind_eq_ok_iff] at h
      obtain ⟨av, hav, h⟩ := h
      rw [chkAdd_eq_ok] at hav
      obtain ⟨-, rfl⟩ := hav
      rw [PRes.bind_eq_bind, PRes.bind_eq_ok_iff] at h
      obtain ⟨r2, -, h⟩ := h
      dsimp only [pushExn] at h
      simp only [PRes.ok.injEq] at h
      subst h
      refine ⟨_, rfl, ?_⟩
      dsimp only
      split
      · simp [featsAsc]
        try omega
      · rfl
    · dsimp only [pushExn] at h
      simp only [PRes.ok.injEq] at h
      subst h
      exact ⟨_, rfl, rfl⟩
  cases h

/-- The `Forward` synthesis walk preserves the ascending-features invariant
of the accumulated exons. -/
theorem synFold_fwd_asc {sn : String} {tid gid eid : Option String} {c0 c1 : Nat}
    {u1 u2 : ExonFeatureKind} :
    ∀ {cs : List Coord} {st st' : SynSt},
      synFold sn .Forward tid gid eid c0 c1 u1 u2 st cs = .ok st' →
      (∀ x ∈ st.acc, featsAsc x.features = true) →
      ∀ x ∈ st'.acc, featsAsc x.features = true := by
  intro cs
  induction cs with
  | nil =>
      intro st st' h hinv
      simp only [synFold, PRes.ok.injEq] at h
      subst h
      exact hinv
  | cons c rest ih =>
      intro st st' h hinv
      simp only [synFold, PRes.bind_eq_bind] at h
      rw [PRes.bind_eq_ok_iff] at h
      obtain ⟨st1, h1, h2⟩ := h
      obtain ⟨x, hx, hasc⟩ := synStep_fwd_asc h1
      refine ih h2 ?_
      rw [hx]
      intro y hy
      rcases List.mem_cons.mp hy with rfl | hy
      · exact hasc
      · exact hinv y hy

theorem framesFeat_fstart (fst : FrameSt) (f : ExonFeature) :
    ((framesFeat fst f).2).fstart = f.fstart := by
  cases f with
  | mk a b k => cases k <;> rfl

theorem framesFeat_fend (fst : FrameSt) (f : ExonFeature) :
    ((framesFeat fst f).2).fend = f.fend := by
  cases f with
  | mk a b k => cases k <;> rfl

theorem framesFeats_cons_snd (fst : FrameSt) (f : ExonFeature)
    (fs : List ExonFeature) :
    (framesFeats fst (f :: fs)).2 =
      (framesFeat fst f).2 :: (framesFeats (framesFeat fst f).1 fs).2 := rfl

/-- Frame assignment preserves the feature intervals, hence the ascending
order of a feature list. -/
theorem featsAsc_framesFeats :
    ∀ (fs : List ExonFeature) (fst : FrameSt),
      featsAsc (framesFeats fst fs).2 = featsAsc fs
  | [], _ => rfl
  | [a], fst => by
      rw [framesFeats_cons_snd]
      rfl
  | a :: b :: rest, fst => by
      rw [framesFeats_cons_snd, framesFeats_cons_snd]
      rw [show featsAsc ((framesFeat fst a).2 :: (framesFeat (framesFeat fst a).1 b).2 ::
            (framesFeats (framesFeat (framesFeat fst a).1 b).1 rest).2) =
          ((decide (((framesFeat fst a).2).fstart < ((framesFeat (framesFeat fst a).1 b).2).fstart) ||
            (decide (((framesFeat fst a).2).fstart = ((framesFeat (framesFeat fst a).1 b).2).fstart) &&
             decide (((framesFeat fst a).2).fend ≤ ((framesFeat (framesFeat fst a).1 b).2).fend))) &&
           featsAsc ((framesFeat (framesFeat fst a).1 b).2 ::
             (framesFeats (framesFeat (framesFeat fst a).1 b).1 rest).2)) from rfl]
      rw [← framesFeats_cons_snd]
      rw [featsAsc_framesFeats (b :: rest) (framesFeat fst a).1]
      rw [framesFeat_fstart, framesFeat_fstart, framesFeat_fend, framesFeat_fend]
      rfl

/-- Frame assignment over exons preserves the ascending order of each
exon's feature list. -/
theorem framesExons_asc :
    ∀ (l : List Exon), (∀ x ∈ l, featsAsc x.features = true) →
      ∀ (fst : FrameSt), ∀ x ∈ framesExons fst l, featsAsc x.features = true := by
  intro l
  induction l with
  | nil => intro _ fst x hx; cases hx
  | cons a rest ih =>
      intro hl fst x hx
      rw [show framesExons fst (a :: rest) =
          ({ a with features := (framesFeats fst a.features).2 } ::
            framesExons (framesFeats fst a.features).1 rest) from rfl] at hx
      rcases List.mem_cons.mp hx with rfl | hx
      · dsimp only
        rw [featsAsc_framesFeats]
        exact hl a (List.mem_cons_self a rest)
      · exact ih (fun y hy => hl y (List.mem_cons_of_mem _ hy)) _ x hx

/-- Claim C7, amended: for every `Forward`-strand transcript built by
`TBuilder` from exon coordinates and a coding coordinate, the sub-features
of each resulting exon are listed in ascending lexicographic
`(start, end)` interval order.  (Pairwise non-overlap does not hold — a
codon sub-feature may overlap the CDS, see `C7_counterexample` — and on
the `Reverse` strand even the ascending order can be violated by
backtracked split codons.) -/
theorem C7_amended (sn : String) (s e : Nat) (σv : Option Strand) (σc : Option Char)
    (tid gid : Option String) (ats : List (String × String)) (ecs : List Coord)
    (a b2 : Nat) (incl : Bool) (t : Transcript)
    (hσ : t.strand = .Forward)
    (hb : TBuilder.build ⟨sn, s, e, σv, σc, tid, gid, ats, none, some ecs,
        some (a, b2), incl⟩ = .ok t) :
    ∀ x ∈ t.exons, featsAsc x.features = true := by
  obtain ⟨σ, exns, hse, hσv, hinf, rfl⟩ := build_ok_facts hb
  dsimp only at hσ
  subst hσ
  obtain ⟨c0, c1, hadj, -, -, -, -, -, -, -, -, hief⟩ := infer_exons_ok_facts hinf
  unfold infer_exon_features at hief
  dsimp only at hief
  rw [PRes.bind_eq_bind, PRes.bind_eq_ok_iff] at hief
  obtain ⟨st, hst, hief⟩ := hief
  simp only [PRes.pure_eq_ok, PRes.ok.injEq] at hief
  subst hief
  dsimp only
  intro x hx
  have hacc : ∀ y ∈ st.acc, featsAsc y.features = true :=
    synFold_fwd_asc hst (by intro y hy; cases hy)
  unfold set_coding_frames at hx
  exact framesExons_asc st.acc.reverse
    (fun y hy => hacc y (List.mem_reverse.mp hy)) _ x hx

/-- Witness for the amended C7 at a concrete input. -/
theorem C7_witness :
    featsAsc ([⟨0, 2, .UTR5⟩, ⟨2, 5, .StartCodon (some 0)⟩, ⟨2, 15, .CDS (some 0)⟩,
        ⟨15, 18, .StopCodon (some 0)⟩, ⟨18, 20, .UTR3⟩] : List ExonFeature) = true :=
  C7_amended "chr1" 0 20 (some .Forward) none none none [] [(0, 20)] 2 15 false
    ⟨"chr1", 0, 20, .Forward, none, none, [],
     [⟨"chr1", 0, 20, .Forward, none, none, none, [],
       [⟨0, 2, .UTR5⟩, ⟨2, 5, .StartCodon (some 0)⟩, ⟨2, 15, .CDS (some 0)⟩,
        ⟨15, 18, .StopCodon (some 0)⟩, ⟨18, 20, .UTR3⟩]⟩]⟩
    rfl (by decide)
    ⟨"chr1", 0, 20, .Forward, none, none, none, [],
     [⟨0, 2, .UTR5⟩, ⟨2, 5, .StartCodon (some 0)⟩, ⟨2, 15, .CDS (some 0)⟩,
      ⟨15, 18, .StopCodon (some 0)⟩, ⟨18, 20, .UTR3⟩]⟩
    (by decide)

end Gte
